import Mathlib

/-!
Verification of the ciphrtxt-go header codec and WS protocol handler.

A shallow embedding of `ciphrtxt/header.go` and `ciphrtxt/wsprotocol.go`.
Go strings and byte slices are modelled as `List Nat` (byte values); Go
machine integers are modelled as `Nat` with explicit `% 2^w` wherever the
Go code can overflow.  Fallible Go functions return `Option` / `Except`,
and functions that can panic return a dedicated result type with a
`panicked` constructor.
-/

set_option maxHeartbeats 1600000
set_option maxRecDepth 100000

/-! ## Positional big-endian digits (shared by hex, big-endian ints, base64) -/

/-- Big-endian digits of `n` in base `B`, exactly `k` digits (most
significant first).  Mirrors how Go renders fixed-width values. -/
def digitsBE (B : Nat) : Nat → Nat → List Nat
  | 0, _ => []
  | k + 1, n => (n / B ^ k) % B :: digitsBE B k (n % B ^ k)

/-- Value of a big-endian digit list in base `B` (Go-style accumulator). -/
def fromDigitsBE (B : Nat) (ds : List Nat) : Nat :=
  ds.foldl (fun a d => a * B + d) 0

theorem digitsBE_length (B k n : Nat) : (digitsBE B k n).length = k := by
  induction k generalizing n with
  | zero => rfl
  | succ k ih => simp [digitsBE, ih]

theorem digitsBE_lt (B k n : Nat) (hB : 0 < B) :
    ∀ d ∈ digitsBE B k n, d < B := by
  induction k generalizing n with
  | zero => intro d hd; simp [digitsBE] at hd
  | succ k ih =>
    intro d hd
    simp only [digitsBE, List.mem_cons] at hd
    rcases hd with h | h
    · subst h; exact Nat.mod_lt _ hB
    · exact ih _ d h

theorem fromDigitsBE_aux (B : Nat) (ds : List Nat) (a : Nat) :
    ds.foldl (fun a d => a * B + d) a = a * B ^ ds.length + fromDigitsBE B ds := by
  induction ds generalizing a with
  | nil => simp [fromDigitsBE]
  | cons d ds ih =>
    simp only [List.foldl_cons, fromDigitsBE, List.length_cons]
    rw [ih (a * B + d), ih (0 * B + d)]
    ring

theorem fromDigitsBE_cons (B d : Nat) (ds : List Nat) :
    fromDigitsBE B (d :: ds) = d * B ^ ds.length + fromDigitsBE B ds := by
  simp only [fromDigitsBE, List.foldl_cons]
  have := fromDigitsBE_aux B ds (0 * B + d)
  simpa [fromDigitsBE] using this

theorem fromDigitsBE_digitsBE (B k n : Nat) (hn : n < B ^ k) :
    fromDigitsBE B (digitsBE B k n) = n := by
  induction k generalizing n with
  | zero =>
    simp only [pow_zero, Nat.lt_one_iff] at hn
    simp [digitsBE, fromDigitsBE, hn]
  | succ k ih =>
    have hB : 0 < B := by
      rcases Nat.eq_zero_or_pos B with h | h
      · subst h; simp at hn
      · exact h
    simp only [digitsBE, fromDigitsBE_cons, digitsBE_length]
    rw [ih (n % B ^ k) (Nat.mod_lt _ (Nat.pos_pow_of_pos k hB))]
    have h1 : n / B ^ k < B := by
      rw [Nat.div_lt_iff_lt_mul (Nat.pos_pow_of_pos k hB)]
      have hmul : B ^ (k + 1) = B * B ^ k := by ring
      omega
    rw [Nat.mod_eq_of_lt h1, Nat.mul_comm (n / B ^ k) (B ^ k)]
    exact Nat.div_add_mod n (B ^ k)

theorem fromDigitsBE_lt (B : Nat) (ds : List Nat) (h : ∀ d ∈ ds, d < B) :
    fromDigitsBE B ds < B ^ ds.length := by
  induction ds with
  | nil => simp [fromDigitsBE]
  | cons d ds ih =>
    have hd : d < B := h d (List.mem_cons_self d ds)
    have hds : ∀ x ∈ ds, x < B := fun x hx => h x (List.mem_cons_of_mem d hx)
    have := ih hds
    simp only [fromDigitsBE_cons, List.length_cons]
    calc d * B ^ ds.length + fromDigitsBE B ds
        < d * B ^ ds.length + B ^ ds.length := by omega
      _ = (d + 1) * B ^ ds.length := by ring
      _ ≤ B * B ^ ds.length := by
          exact Nat.mul_le_mul_right _ hd
      _ = B ^ (ds.length + 1) := by ring

theorem digitsBE_fromDigitsBE (B : Nat) (ds : List Nat) (h : ∀ d ∈ ds, d < B) :
    digitsBE B ds.length (fromDigitsBE B ds) = ds := by
  induction ds with
  | nil => rfl
  | cons d ds ih =>
    have hd : d < B := h d (List.mem_cons_self d ds)
    have hds : ∀ x ∈ ds, x < B := fun x hx => h x (List.mem_cons_of_mem d hx)
    have hlt : fromDigitsBE B ds < B ^ ds.length := fromDigitsBE_lt B ds hds
    have hB : 0 < B := by omega
    have hpow : 0 < B ^ ds.length := Nat.pos_pow_of_pos _ hB
    simp only [List.length_cons, digitsBE, fromDigitsBE_cons]
    have hdiv : (d * B ^ ds.length + fromDigitsBE B ds) / B ^ ds.length = d := by
      rw [Nat.mul_comm d, Nat.mul_add_div hpow, Nat.div_eq_of_lt hlt,
        Nat.add_zero]
    have hmod : (d * B ^ ds.length + fromDigitsBE B ds) % B ^ ds.length
        = fromDigitsBE B ds := by
      rw [Nat.mul_comm d, Nat.mul_add_mod, Nat.mod_eq_of_lt hlt]
    rw [hdiv, hmod, Nat.mod_eq_of_lt hd, ih hds]

/-! ## Go `encoding/hex` and `strconv.ParseUint(_, 16, 32)` -/

/-- Value of an ASCII hex digit byte, as accepted by Go's
`hex.DecodeString` and `strconv.ParseUint` (digits, lowercase and
uppercase letters). -/
def hexDigitVal (c : Nat) : Option Nat :=
  if 48 ≤ c ∧ c ≤ 57 then some (c - 48)
  else if 97 ≤ c ∧ c ≤ 102 then some (c - 87)
  else if 65 ≤ c ∧ c ≤ 70 then some (c - 55)
  else none

/-- Lowercase hex digit byte (Go `hex.EncodeToString` alphabet). -/
def hexLcChar (d : Nat) : Nat := if d < 10 then 48 + d else 87 + d

/-- Uppercase hex digit byte (Go `%X` formatting alphabet). -/
def hexUcChar (d : Nat) : Nat := if d < 10 then 48 + d else 55 + d

/-- Go `hex.DecodeString` over byte lists: fails on odd length or on a
byte that is not a hex digit. -/
def hexDecodeGo : List Nat → Option (List Nat)
  | [] => some []
  | [_] => none
  | c1 :: c2 :: rest => do
    let h ← hexDigitVal c1
    let l ← hexDigitVal c2
    let tl ← hexDecodeGo rest
    pure ((16 * h + l) :: tl)

/-- Go `hex.EncodeToString` over byte lists (lowercase output). -/
def hexEncodeGo : List Nat → List Nat
  | [] => []
  | b :: rest => hexLcChar (b / 16 % 16) :: hexLcChar (b % 16) :: hexEncodeGo rest

def isLcHexDigit (c : Nat) : Bool :=
  (48 ≤ c && c ≤ 57) || (97 ≤ c && c ≤ 102)

def isUcHexDigit (c : Nat) : Bool :=
  (48 ≤ c && c ≤ 57) || (65 ≤ c && c ≤ 70)

theorem hexEncodeGo_length (bs : List Nat) :
    (hexEncodeGo bs).length = 2 * bs.length := by
  induction bs with
  | nil => rfl
  | cons b bs ih => simp [hexEncodeGo, ih]; omega

theorem hexDigitVal_lcChar (d : Nat) (hd : d < 16) :
    hexDigitVal (hexLcChar d) = some d := by
  unfold hexLcChar
  rcases Nat.lt_or_ge d 10 with h | h
  · rw [if_pos h]
    unfold hexDigitVal
    rw [if_pos (by omega)]
    congr 1
    omega
  · rw [if_neg (by omega)]
    unfold hexDigitVal
    rw [if_neg (by omega), if_pos (by omega)]
    congr 1
    omega

theorem hexLcChar_isLc (d : Nat) (hd : d < 16) :
    isLcHexDigit (hexLcChar d) = true := by
  unfold isLcHexDigit hexLcChar
  split <;> simp <;> omega

theorem hexLcChar_ne_colon (d : Nat) : hexLcChar d ≠ 58 := by
  unfold hexLcChar; split <;> omega

theorem hexUcChar_ne_colon (d : Nat) (hd : d < 16) : hexUcChar d ≠ 58 := by
  unfold hexUcChar; split <;> omega

theorem hexDigitVal_ucChar (d : Nat) (hd : d < 16) :
    hexDigitVal (hexUcChar d) = some d := by
  unfold hexUcChar
  rcases Nat.lt_or_ge d 10 with h | h
  · rw [if_pos h]
    unfold hexDigitVal
    rw [if_pos (by omega)]
    congr 1
    omega
  · rw [if_neg (by omega)]
    unfold hexDigitVal
    rw [if_neg (by omega), if_neg (by omega), if_pos (by omega)]
    congr 1
    omega

theorem hexUcChar_of_val (c v : Nat) (hc : isUcHexDigit c = true)
    (hv : hexDigitVal c = some v) : hexUcChar v = c := by
  unfold isUcHexDigit at hc
  unfold hexDigitVal at hv
  simp only [Bool.or_eq_true, Bool.and_eq_true, decide_eq_true_eq] at hc
  unfold hexUcChar
  rcases hc with ⟨h1, h2⟩ | ⟨h1, h2⟩
  · rw [if_pos (by omega)] at hv
    simp only [Option.some.injEq] at hv
    rw [if_pos (by omega)]
    omega
  · rw [if_neg (by omega), if_neg (by omega), if_pos (by omega)] at hv
    simp only [Option.some.injEq] at hv
    rw [if_neg (by omega)]
    omega

theorem hexLcChar_of_val (c v : Nat) (hc : isLcHexDigit c = true)
    (hv : hexDigitVal c = some v) : hexLcChar v = c := by
  unfold isLcHexDigit at hc
  unfold hexDigitVal at hv
  simp only [Bool.or_eq_true, Bool.and_eq_true, decide_eq_true_eq] at hc
  unfold hexLcChar
  rcases hc with ⟨h1, h2⟩ | ⟨h1, h2⟩
  · rw [if_pos (by omega)] at hv
    simp only [Option.some.injEq] at hv
    rw [if_pos (by omega)]
    omega
  · rw [if_neg (by omega), if_pos (by omega)] at hv
    simp only [Option.some.injEq] at hv
    rw [if_neg (by omega)]
    omega

theorem hexDecode_hexEncode (bs : List Nat) (h : ∀ b ∈ bs, b < 256) :
    hexDecodeGo (hexEncodeGo bs) = some bs := by
  induction bs with
  | nil => rfl
  | cons b bs ih =>
    have hb : b < 256 := h b (List.mem_cons_self b bs)
    have hbs : ∀ x ∈ bs, x < 256 := fun x hx => h x (List.mem_cons_of_mem b hx)
    have e1 := hexDigitVal_lcChar (b / 16 % 16) (Nat.mod_lt _ (by omega))
    have e2 := hexDigitVal_lcChar (b % 16) (Nat.mod_lt _ (by omega))
    simp only [hexEncodeGo, hexDecodeGo, e1, e2, ih hbs]
    have hb16 : b / 16 % 16 = b / 16 := Nat.mod_eq_of_lt (by omega)
    simp only [Option.bind_eq_bind, Option.some_bind, Option.pure_def,
      Option.some.injEq, List.cons.injEq, and_true, hb16]
    omega

theorem hexDigitVal_lt {c v : Nat} (h : hexDigitVal c = some v) : v < 16 := by
  unfold hexDigitVal at h
  split at h
  · simp only [Option.some.injEq] at h; omega
  · split at h
    · simp only [Option.some.injEq] at h; omega
    · split at h
      · simp only [Option.some.injEq] at h; omega
      · exact absurd h (by simp)

theorem hexEncode_of_decode (s : List Nat) : ∀ bs, hexDecodeGo s = some bs →
    (∀ c ∈ s, isLcHexDigit c = true) → hexEncodeGo bs = s := by
  induction s using hexDecodeGo.induct with
  | case1 =>
    intro bs hdec _
    simp only [hexDecodeGo, Option.some.injEq] at hdec
    subst hdec
    rfl
  | case2 c =>
    intro bs hdec _
    simp only [hexDecodeGo] at hdec
    exact Option.noConfusion hdec
  | case3 c1 c2 rest ih =>
    intro bs hdec hall
    simp only [hexDecodeGo, Option.bind_eq_bind] at hdec
    rcases h1 : hexDigitVal c1 with _ | v1
    · rw [h1] at hdec; simp at hdec
    rcases h2 : hexDigitVal c2 with _ | v2
    · rw [h1, h2] at hdec; simp at hdec
    rcases h3 : hexDecodeGo rest with _ | tl
    · rw [h1, h2, h3] at hdec; simp at hdec
    rw [h1, h2, h3] at hdec
    simp only [Option.some_bind, Option.pure_def, Option.some.injEq] at hdec
    subst hdec
    have hv1 : v1 < 16 := hexDigitVal_lt h1
    have hv2 : v2 < 16 := hexDigitVal_lt h2
    have hc1 : isLcHexDigit c1 = true := hall c1 (by simp)
    have hc2 : isLcHexDigit c2 = true := hall c2 (by simp)
    have hrest : ∀ c ∈ rest, isLcHexDigit c = true := fun c hc =>
      hall c (by simp [hc])
    simp only [hexEncodeGo]
    have hd1 : (16 * v1 + v2) / 16 % 16 = v1 := by omega
    have hd2 : (16 * v1 + v2) % 16 = v2 := by omega
    rw [hd1, hd2, hexLcChar_of_val c1 v1 hc1 h1, hexLcChar_of_val c2 v2 hc2 h2,
      ih tl h3 hrest]

theorem hexDecode_length (s : List Nat) : ∀ bs, hexDecodeGo s = some bs →
    bs.length = s.length / 2 ∧ ∀ b ∈ bs, b < 256 := by
  induction s using hexDecodeGo.induct with
  | case1 =>
    intro bs hdec
    simp only [hexDecodeGo, Option.some.injEq] at hdec
    subst hdec
    simp
  | case2 c =>
    intro bs hdec
    simp only [hexDecodeGo] at hdec
    exact Option.noConfusion hdec
  | case3 c1 c2 rest ih =>
    intro bs hdec
    simp only [hexDecodeGo, Option.bind_eq_bind] at hdec
    rcases h1 : hexDigitVal c1 with _ | v1
    · rw [h1] at hdec; simp at hdec
    rcases h2 : hexDigitVal c2 with _ | v2
    · rw [h1, h2] at hdec; simp at hdec
    rcases h3 : hexDecodeGo rest with _ | tl
    · rw [h1, h2, h3] at hdec; simp at hdec
    rw [h1, h2, h3] at hdec
    simp only [Option.some_bind, Option.pure_def, Option.some.injEq] at hdec
    subst hdec
    have hv1 : v1 < 16 := hexDigitVal_lt h1
    have hv2 : v2 < 16 := hexDigitVal_lt h2
    obtain ⟨hl, hb⟩ := ih tl h3
    refine ⟨by simp [hl]; omega, ?_⟩
    intro b hbmem
    rcases hbmem with _ | hbmem
    · omega
    · exact hb b (by assumption)

/-- The digit-accumulation loop of Go `strconv.ParseUint(s, 16, 32)`:
on an invalid character it returns 0 (syntax error, value 0); when the
accumulated value would exceed `1<<32 - 1` it returns `1<<32 - 1`
(range error, value `maxVal`).  The Go caller discards the error. -/
def goParseHexLoop : Nat → List Nat → Nat
  | n, [] => n
  | n, c :: rest =>
    match hexDigitVal c with
    | none => 0
    | some d =>
      if 2 ^ 32 - 1 < n * 16 + d then 2 ^ 32 - 1
      else goParseHexLoop (n * 16 + d) rest

/-- Go `t64, _ = strconv.ParseUint(s, 16, 32)` as used by
`deserializeV1` (the error is ignored; an empty string is a syntax
error, value 0). -/
def goParseUintHex32 (s : List Nat) : Nat :=
  if s = [] then 0 else goParseHexLoop 0 s

/-- Go `fmt.Sprintf("%08X", n)` for a `uint32` value. -/
def u32hexUpper (n : Nat) : List Nat := (digitsBE 16 8 n).map hexUcChar

theorem goParseHexLoop_eq {cs vs : List Nat}
    (hcv : List.Forall₂ (fun c v => hexDigitVal c = some v) cs vs) :
    ∀ n, n * 16 ^ cs.length + fromDigitsBE 16 vs ≤ 2 ^ 32 - 1 →
    goParseHexLoop n cs = n * 16 ^ cs.length + fromDigitsBE 16 vs := by
  induction hcv with
  | nil =>
    intro n _
    simp [goParseHexLoop, fromDigitsBE]
  | @cons c v cs vs hdv htl ih =>
    intro n hle
    have hlen : cs.length = vs.length := htl.length_eq
    simp only [goParseHexLoop, hdv]
    have hexp : n * 16 ^ (c :: cs).length + fromDigitsBE 16 (v :: vs)
        = (n * 16 + v) * 16 ^ cs.length + fromDigitsBE 16 vs := by
      simp only [List.length_cons, fromDigitsBE_cons, ← hlen]
      ring
    rw [hexp] at hle ⊢
    have hpow : 1 ≤ 16 ^ cs.length := Nat.one_le_pow _ _ (by omega)
    have hn1 : ¬ 2 ^ 32 - 1 < n * 16 + v := by
      have : (n * 16 + v) * 1 ≤ (n * 16 + v) * 16 ^ cs.length :=
        Nat.mul_le_mul_left _ hpow
      omega
    rw [if_neg hn1]
    exact ih (n * 16 + v) hle

theorem forall2_digit_map (ds : List Nat) (h : ∀ d ∈ ds, d < 16) :
    List.Forall₂ (fun c v => hexDigitVal c = some v) (ds.map hexUcChar) ds := by
  induction ds with
  | nil => exact List.Forall₂.nil
  | cons d ds ih =>
    refine List.Forall₂.cons ?_ (ih fun x hx => h x (List.mem_cons_of_mem d hx))
    exact hexDigitVal_ucChar d (h d (List.mem_cons_self d ds))

theorem goParseUintHex32_u32hexUpper (n : Nat) (hn : n < 2 ^ 32) :
    goParseUintHex32 (u32hexUpper n) = n := by
  unfold goParseUintHex32 u32hexUpper
  have hlen : ((digitsBE 16 8 n).map hexUcChar).length = 8 := by
    simp [digitsBE_length]
  rw [if_neg (by intro h; rw [h] at hlen; simp at hlen)]
  have hds := digitsBE_lt 16 8 n (by omega)
  have hval : fromDigitsBE 16 (digitsBE 16 8 n) = n :=
    fromDigitsBE_digitsBE 16 8 n (by norm_num; omega)
  have := goParseHexLoop_eq (forall2_digit_map _ hds) 0
    (by rw [hval, hlen]; omega)
  rw [this, hval, hlen]
  omega

theorem isUcHexDigit_val {c : Nat} (hc : isUcHexDigit c = true) :
    ∃ v, hexDigitVal c = some v ∧ hexUcChar v = c ∧ v < 16 := by
  unfold isUcHexDigit at hc
  simp only [Bool.or_eq_true, Bool.and_eq_true, decide_eq_true_eq] at hc
  unfold hexDigitVal hexUcChar
  rcases hc with ⟨h1, h2⟩ | ⟨h1, h2⟩
  · exact ⟨c - 48, by rw [if_pos (by omega)], by rw [if_pos (by omega)]; omega,
      by omega⟩
  · exact ⟨c - 55, by rw [if_neg (by omega), if_neg (by omega),
      if_pos (by omega)], by rw [if_neg (by omega)]; omega, by omega⟩

theorem ucDigits_exist (s : List Nat) (h : ∀ c ∈ s, isUcHexDigit c = true) :
    ∃ vs, List.Forall₂
      (fun c v => hexDigitVal c = some v ∧ hexUcChar v = c ∧ v < 16) s vs := by
  induction s with
  | nil => exact ⟨[], List.Forall₂.nil⟩
  | cons c s ih =>
    obtain ⟨vs, hvs⟩ := ih fun x hx => h x (List.mem_cons_of_mem c hx)
    obtain ⟨v, hv⟩ := isUcHexDigit_val (h c (List.mem_cons_self c s))
    exact ⟨v :: vs, List.Forall₂.cons hv hvs⟩

theorem forall2_right_lt16 {s vs : List Nat}
    (hvs : List.Forall₂
      (fun c v => hexDigitVal c = some v ∧ hexUcChar v = c ∧ v < 16) s vs) :
    ∀ v ∈ vs, v < 16 := by
  induction hvs with
  | nil => simp
  | cons hcv _ ih =>
    intro v hv
    rcases List.mem_cons.mp hv with h | h
    · subst h; exact hcv.2.2
    · exact ih v h

theorem u32hexUpper_goParseUintHex32 (s : List Nat) (hlen : s.length = 8)
    (h : ∀ c ∈ s, isUcHexDigit c = true) :
    u32hexUpper (goParseUintHex32 s) = s ∧ goParseUintHex32 s < 2 ^ 32 := by
  obtain ⟨vs, hvs⟩ := ucDigits_exist s h
  have hlen2 : vs.length = 8 := by rw [← hvs.length_eq, hlen]
  have hforall : List.Forall₂ (fun c v => hexDigitVal c = some v) s vs :=
    hvs.imp fun _ _ h => h.1
  have hvlt : ∀ v ∈ vs, v < 16 := forall2_right_lt16 hvs
  have hbound : fromDigitsBE 16 vs < 2 ^ 32 := by
    have := fromDigitsBE_lt 16 vs hvlt
    rw [hlen2] at this
    calc fromDigitsBE 16 vs < 16 ^ 8 := this
      _ = 2 ^ 32 := by norm_num
  unfold goParseUintHex32
  rw [if_neg (by intro hs; rw [hs] at hlen; simp at hlen)]
  rw [goParseHexLoop_eq hforall 0 (by rw [hlen]; omega)]
  rw [hlen]
  simp only [Nat.zero_mul, Nat.zero_add]
  constructor
  · unfold u32hexUpper
    have : digitsBE 16 8 (fromDigitsBE 16 vs) = vs := by
      rw [← hlen2]
      exact digitsBE_fromDigitsBE 16 vs hvlt
    rw [this]
    have hmap : List.Forall₂ (fun c v => hexUcChar v = c) s vs :=
      hvs.imp fun _ _ h => h.2.1
    clear hvs hforall hvlt hbound this hlen2 hlen h
    induction hmap with
    | nil => rfl
    | cons hcv _ ih => simp [hcv, ih]
  · exact hbound

/-! ## Go `encoding/base64` (StdEncoding) -/

/-- Character of the standard base64 alphabet at index `v`. -/
def b64Char (v : Nat) : Nat :=
  if v < 26 then 65 + v
  else if v < 52 then 71 + v
  else if v < 62 then v - 4
  else if v = 62 then 43
  else 47

/-- Index of a byte in the standard base64 alphabet ('=' excluded). -/
def b64Val (c : Nat) : Option Nat :=
  if 65 ≤ c ∧ c ≤ 90 then some (c - 65)
  else if 97 ≤ c ∧ c ≤ 122 then some (c - 71)
  else if 48 ≤ c ∧ c ≤ 57 then some (c + 4)
  else if c = 43 then some 62
  else if c = 47 then some 63
  else none

def isB64Char (c : Nat) : Bool := (b64Val c).isSome

/-- Go `base64.StdEncoding.Encode` over byte lists ('=' = byte 61 pads a
final partial group). -/
def b64EncodeGo : List Nat → List Nat
  | a :: b :: c :: rest =>
    b64Char (a / 4 % 64) :: b64Char ((a % 4) * 16 + b / 16) ::
    b64Char ((b % 16) * 4 + c / 64) :: b64Char (c % 64) :: b64EncodeGo rest
  | [a, b] => [b64Char (a / 4 % 64), b64Char ((a % 4) * 16 + b / 16),
    b64Char ((b % 16) * 4), 61]
  | [a] => [b64Char (a / 4 % 64), b64Char ((a % 4) * 16), 61, 61]
  | [] => []

/-- Quantum-wise decoding of Go `base64.StdEncoding.DecodeString`
(after newline stripping): '=' padding is accepted only at the end of
the input, and (as in Go's default non-strict mode) non-zero trailing
bits of a padded group are ignored. -/
def b64DecodeQuads : List Nat → Option (List Nat)
  | [] => some []
  | c1 :: c2 :: c3 :: c4 :: rest => do
    let v1 ← b64Val c1
    let v2 ← b64Val c2
    if c3 = 61 then
      if c4 = 61 ∧ rest = [] then some [v1 * 4 + v2 / 16] else none
    else do
      let v3 ← b64Val c3
      if c4 = 61 then
        if rest = [] then some [v1 * 4 + v2 / 16, (v2 % 16) * 16 + v3 / 4]
        else none
      else do
        let v4 ← b64Val c4
        let tl ← b64DecodeQuads rest
        pure ((v1 * 4 + v2 / 16) :: ((v2 % 16) * 16 + v3 / 4) ::
          ((v3 % 4) * 64 + v4) :: tl)
  | _ => none

/-- Go `base64.StdEncoding.DecodeString` over byte lists: carriage
returns and newlines are skipped, then the input is decoded per
4-character quantum. -/
def b64DecodeGo (s : List Nat) : Option (List Nat) :=
  b64DecodeQuads (s.filter fun c => c != 10 && c != 13)

theorem b64Val_lt {c v : Nat} (h : b64Val c = some v) : v < 64 := by
  unfold b64Val at h
  split at h
  · simp only [Option.some.injEq] at h; omega
  · split at h
    · simp only [Option.some.injEq] at h; omega
    · split at h
      · simp only [Option.some.injEq] at h; omega
      · split at h
        · simp only [Option.some.injEq] at h; omega
        · split at h
          · simp only [Option.some.injEq] at h; omega
          · exact absurd h (by simp)

theorem b64Val_b64Char (v : Nat) (hv : v < 64) : b64Val (b64Char v) = some v := by
  unfold b64Char
  rcases Nat.lt_or_ge v 26 with h1 | h1
  · rw [if_pos h1]
    unfold b64Val
    rw [if_pos (by omega)]
    congr 1
    omega
  rcases Nat.lt_or_ge v 52 with h2 | h2
  · rw [if_neg (by omega), if_pos h2]
    unfold b64Val
    rw [if_neg (by omega), if_pos (by omega)]
    congr 1
    omega
  rcases Nat.lt_or_ge v 62 with h3 | h3
  · rw [if_neg (by omega), if_neg (by omega), if_pos h3]
    unfold b64Val
    rw [if_neg (by omega), if_neg (by omega), if_pos (by omega)]
    congr 1
    omega
  rcases Nat.eq_or_lt_of_le h3 with h4 | h4
  · rw [if_neg (by omega), if_neg (by omega), if_neg (by omega),
      if_pos (by omega)]
    unfold b64Val
    rw [if_neg (by omega), if_neg (by omega), if_neg (by omega),
      if_pos (by omega)]
    simp only [Option.some.injEq]
    omega
  · rw [if_neg (by omega), if_neg (by omega), if_neg (by omega),
      if_neg (by omega)]
    unfold b64Val
    rw [if_neg (by omega), if_neg (by omega), if_neg (by omega),
      if_neg (by omega), if_pos (by omega)]
    congr 1
    omega

theorem b64Char_of_val {c v : Nat} (hv : b64Val c = some v) :
    b64Char v = c := by
  unfold b64Val at hv
  unfold b64Char
  split at hv
  · simp only [Option.some.injEq] at hv
    rw [if_pos (by omega)]
    omega
  · split at hv
    · simp only [Option.some.injEq] at hv
      rw [if_neg (by omega), if_pos (by omega)]
      omega
    · split at hv
      · simp only [Option.some.injEq] at hv
        rw [if_neg (by omega), if_neg (by omega), if_pos (by omega)]
        omega
      · split at hv
        · simp only [Option.some.injEq] at hv
          rw [if_neg (by omega), if_neg (by omega), if_neg (by omega),
            if_pos (by omega)]
          omega
        · split at hv
          · simp only [Option.some.injEq] at hv
            rw [if_neg (by omega), if_neg (by omega), if_neg (by omega),
              if_neg (by omega)]
            omega
          · exact absurd hv (by simp)

theorem b64Char_ranges (v : Nat) :
    b64Char v = 43 ∨ b64Char v = 47 ∨ (48 ≤ b64Char v ∧ b64Char v ≤ 57) ∨
    (65 ≤ b64Char v ∧ b64Char v ≤ 90) ∨ (97 ≤ b64Char v ∧ b64Char v ≤ 122) := by
  unfold b64Char
  split
  · omega
  · split
    · omega
    · split
      · omega
      · split
        · omega
        · omega

theorem b64Char_ne_pad (v : Nat) : b64Char v ≠ 61 := by
  have := b64Char_ranges v
  omega

theorem b64Char_ne_crlf (v : Nat) : b64Char v ≠ 10 ∧ b64Char v ≠ 13 := by
  have := b64Char_ranges v
  omega

theorem b64EncodeGo_no_crlf (bs : List Nat) :
    ∀ c ∈ b64EncodeGo bs, c ≠ 10 ∧ c ≠ 13 := by
  induction bs using b64EncodeGo.induct with
  | case1 a b c rest ih =>
    intro x hx
    simp only [b64EncodeGo, List.mem_cons] at hx
    rcases hx with h | h | h | h | h
    all_goals first
    | (subst h; exact b64Char_ne_crlf _)
    | exact ih x h
  | case2 a b =>
    intro x hx
    simp only [b64EncodeGo, List.mem_cons] at hx
    rcases hx with h | h | h | h | h <;> first
    | (subst h; exact b64Char_ne_crlf _)
    | (subst h; omega)
    | simp at h
  | case3 a =>
    intro x hx
    simp only [b64EncodeGo, List.mem_cons] at hx
    rcases hx with h | h | h | h | h <;> first
    | (subst h; exact b64Char_ne_crlf _)
    | (subst h; omega)
    | simp at h
  | case4 =>
    intro x hx
    simp [b64EncodeGo] at hx

theorem b64EncodeGo_length3 (bs : List Nat) (h3 : bs.length % 3 = 0) :
    (b64EncodeGo bs).length = bs.length / 3 * 4 := by
  induction bs using b64EncodeGo.induct with
  | case1 a b c rest ih =>
    simp only [List.length_cons] at h3 ⊢
    have h3' : rest.length % 3 = 0 := by omega
    simp only [b64EncodeGo, List.length_cons, ih h3']
    omega
  | case2 a b => simp at h3
  | case3 a => simp at h3
  | case4 => rfl

theorem b64DecodeQuads_encode (bs : List Nat) (h3 : bs.length % 3 = 0)
    (hb : ∀ b ∈ bs, b < 256) :
    b64DecodeQuads (b64EncodeGo bs) = some bs := by
  induction bs using b64EncodeGo.induct with
  | case1 a b c rest ih =>
    have ha : a < 256 := hb a (by simp)
    have hbb : b < 256 := hb b (by simp)
    have hc : c < 256 := hb c (by simp)
    have hrest : ∀ x ∈ rest, x < 256 := fun x hx => hb x (by simp [hx])
    have h3' : rest.length % 3 = 0 := by
      simp only [List.length_cons] at h3
      omega
    simp only [b64EncodeGo, b64DecodeQuads, Option.bind_eq_bind,
      b64Val_b64Char (a / 4 % 64) (Nat.mod_lt _ (by omega)),
      b64Val_b64Char ((a % 4) * 16 + b / 16) (by omega),
      b64Val_b64Char ((b % 16) * 4 + c / 64) (by omega),
      b64Val_b64Char (c % 64) (by omega),
      if_neg (b64Char_ne_pad ((b % 16) * 4 + c / 64)),
      if_neg (b64Char_ne_pad (c % 64)),
      ih h3' hrest, Option.some_bind, Option.pure_def, Option.some.injEq,
      List.cons.injEq]
    refine ⟨by omega, by omega, by omega, trivial⟩
  | case2 a b => simp at h3
  | case3 a => simp at h3
  | case4 => rfl

theorem b64DecodeGo_encode (bs : List Nat) (h3 : bs.length % 3 = 0)
    (hb : ∀ b ∈ bs, b < 256) :
    b64DecodeGo (b64EncodeGo bs) = some bs := by
  unfold b64DecodeGo
  rw [List.filter_eq_self.mpr]
  · exact b64DecodeQuads_encode bs h3 hb
  · intro c hc
    have := b64EncodeGo_no_crlf bs c hc
    simp only [bne_iff_ne, ne_eq, Bool.and_eq_true, decide_eq_true_eq]
    exact ⟨by simpa using this.1, by simpa using this.2⟩

theorem b64Encode_of_decodeQuads (s : List Nat) : ∀ bs,
    b64DecodeQuads s = some bs → (∀ c ∈ s, isB64Char c = true) →
    b64EncodeGo bs = s ∧ bs.length % 3 = 0 ∧
    bs.length = s.length / 4 * 3 ∧ ∀ b ∈ bs, b < 256 := by
  induction s using b64DecodeQuads.induct with
  | case1 =>
    intro bs hdec _
    simp only [b64DecodeQuads, Option.some.injEq] at hdec
    subst hdec
    exact ⟨rfl, rfl, rfl, by simp⟩
  | case2 c1 c2 c3 c4 rest ih =>
    intro bs hdec hall
    simp only [b64DecodeQuads, Option.bind_eq_bind] at hdec
    rcases h1 : b64Val c1 with _ | v1
    · rw [h1] at hdec; simp at hdec
    rcases h2 : b64Val c2 with _ | v2
    · rw [h1, h2] at hdec; simp at hdec
    rw [h1, h2] at hdec
    simp only [Option.some_bind] at hdec
    by_cases hc3 : c3 = 61
    · exact absurd (hall c3 (by simp)) (by rw [hc3]; decide)
    rw [if_neg hc3] at hdec
    rcases h3 : b64Val c3 with _ | v3
    · rw [h3] at hdec; simp at hdec
    rw [h3] at hdec
    simp only [Option.some_bind] at hdec
    by_cases hc4 : c4 = 61
    · exact absurd (hall c4 (by simp)) (by rw [hc4]; decide)
    rw [if_neg hc4] at hdec
    rcases h4 : b64Val c4 with _ | v4
    · rw [h4] at hdec; simp at hdec
    rw [h4] at hdec
    simp only [Option.some_bind] at hdec
    rcases h5 : b64DecodeQuads rest with _ | tl
    · rw [h5] at hdec; simp at hdec
    rw [h5] at hdec
    simp only [Option.some_bind, Option.pure_def, Option.some.injEq] at hdec
    subst hdec
    have hv1 : v1 < 64 := b64Val_lt h1
    have hv2 : v2 < 64 := b64Val_lt h2
    have hv3 : v3 < 64 := b64Val_lt h3
    have hv4 : v4 < 64 := b64Val_lt h4
    have hrestall : ∀ c ∈ rest, isB64Char c = true := fun c hc =>
      hall c (by simp [hc])
    obtain ⟨henc, hmod, hlen, hbytes⟩ := ih tl h5 hrestall
    refine ⟨?_, ?_, ?_, ?_⟩
    · simp only [b64EncodeGo, henc]
      have e1 : (v1 * 4 + v2 / 16) / 4 % 64 = v1 := by omega
      have e2 : (v1 * 4 + v2 / 16) % 4 * 16 + (v2 % 16 * 16 + v3 / 4) / 16
          = v2 := by omega
      have e3 : (v2 % 16 * 16 + v3 / 4) % 16 * 4 + (v3 % 4 * 64 + v4) / 64
          = v3 := by omega
      have e4 : (v3 % 4 * 64 + v4) % 64 = v4 := by omega
      rw [e1, e2, e3, e4, b64Char_of_val h1, b64Char_of_val h2,
        b64Char_of_val h3, b64Char_of_val h4]
    · simp only [List.length_cons]
      omega
    · simp only [List.length_cons]
      omega
    · intro b hb
      simp only [List.mem_cons] at hb
      rcases hb with h | h | h | h
      · omega
      · omega
      · omega
      · exact hbytes b h
  | case3 s hne hnq =>
    intro bs hdec hall
    rcases s with _ | ⟨c1, _ | ⟨c2, _ | ⟨c3, _ | ⟨c4, rest⟩⟩⟩⟩
    · exact absurd rfl hne
    · simp [b64DecodeQuads] at hdec
    · simp [b64DecodeQuads] at hdec
    · simp [b64DecodeQuads] at hdec
    · exact absurd rfl (hnq c1 c2 c3 c4 rest)

/-! ## Go `strings.Split(s, ":")` over byte lists -/

/-- Go `strings.Split(s, ":")` (byte 58): splits on every colon;
the empty string yields one empty field. -/
def splitColon : List Nat → List (List Nat)
  | [] => [[]]
  | c :: rest =>
    match splitColon rest with
    | [] => [[]]
    | h :: t => if c = 58 then [] :: h :: t else (c :: h) :: t

/-- ASCII bytes of a string literal. -/
def ascii (s : String) : List Nat := s.data.map Char.toNat

theorem splitColon_ne_nil (s : List Nat) : splitColon s ≠ [] := by
  cases s with
  | nil => simp [splitColon]
  | cons c rest =>
    rcases h : splitColon rest with _ | ⟨x, t⟩
    · simp [splitColon, h]
    · simp only [splitColon, h]
      split <;> simp

theorem splitColon_free (p : List Nat) (hp : ∀ c ∈ p, c ≠ 58) :
    splitColon p = [p] := by
  induction p with
  | nil => rfl
  | cons c rest ih =>
    have hc : c ≠ 58 := hp c (by simp)
    have hrest : ∀ x ∈ rest, x ≠ 58 := fun x hx => hp x (by simp [hx])
    simp [splitColon, ih hrest, hc]

theorem splitColon_append_free (p rest : List Nat) (h : List Nat)
    (t : List (List Nat))
    (hp : ∀ c ∈ p, c ≠ 58) (hrest : splitColon rest = h :: t) :
    splitColon (p ++ rest) = (p ++ h) :: t := by
  induction p with
  | nil => simpa using hrest
  | cons c p ih =>
    have hc : c ≠ 58 := hp c (by simp)
    have hp' : ∀ x ∈ p, x ≠ 58 := fun x hx => hp x (by simp [hx])
    simp [splitColon, ih hp', hc]

theorem splitColon_field (a rest : List Nat) (ha : ∀ c ∈ a, c ≠ 58) :
    splitColon (a ++ 58 :: rest) = a :: splitColon rest := by
  rcases h : splitColon rest with _ | ⟨x, t⟩
  · exact absurd h (splitColon_ne_nil rest)
  · have hmid : splitColon (58 :: rest) = [] :: x :: t := by
      simp [splitColon, h]
    have := splitColon_append_free a (58 :: rest) [] (x :: t) ha hmid
    simpa [h] using this

/-! ## SHA-256 (FIPS 180-4), the function behind Go `sha256.Sum256` -/

/-- Truncation to 32 bits. -/
def w32 (n : Nat) : Nat := n % 2 ^ 32

/-- 32-bit right rotation (for `x < 2^32`, `n ≤ 32`). -/
def rotr32 (n x : Nat) : Nat := x / 2 ^ n + x % 2 ^ n * 2 ^ (32 - n)

def shaCh (x y z : Nat) : Nat :=
  Nat.xor (Nat.land x y) (Nat.land (Nat.xor x 4294967295) z)

def shaMaj (x y z : Nat) : Nat :=
  Nat.xor (Nat.land x y) (Nat.xor (Nat.land x z) (Nat.land y z))

def bigSigma0 (x : Nat) : Nat :=
  Nat.xor (rotr32 2 x) (Nat.xor (rotr32 13 x) (rotr32 22 x))

def bigSigma1 (x : Nat) : Nat :=
  Nat.xor (rotr32 6 x) (Nat.xor (rotr32 11 x) (rotr32 25 x))

def smallSigma0 (x : Nat) : Nat :=
  Nat.xor (rotr32 7 x) (Nat.xor (rotr32 18 x) (x / 2 ^ 3))

def smallSigma1 (x : Nat) : Nat :=
  Nat.xor (rotr32 17 x) (Nat.xor (rotr32 19 x) (x / 2 ^ 10))

/-- The SHA-256 round constants. -/
def shaK : List Nat :=
  [1116352408, 1899447441, 3049323471, 3921009573,
   961987163, 1508970993, 2453635748, 2870763221,
   3624381080, 310598401, 607225278, 1426881987,
   1925078388, 2162078206, 2614888103, 3248222580,
   3835390401, 4022224774, 264347078, 604807628,
   770255983, 1249150122, 1555081692, 1996064986,
   2554220882, 2821834349, 2952996808, 3210313671,
   3336571891, 3584528711, 113926993, 338241895,
   666307205, 773529912, 1294757372, 1396182291,
   1695183700, 1986661051, 2177026350, 2456956037,
   2730485921, 2820302411, 3259730800, 3345764771,
   3516065817, 3600352804, 4094571909, 275423344,
   430227734, 506948616, 659060556, 883997877,
   958139571, 1322822218, 1537002063, 1747873779,
   1955562222, 2024104815, 2227730452, 2361852424,
   2428436474, 2756734187, 3204031479, 3329325298]

/-- SHA-256 message padding: `0x80`, zeros, then the 64-bit big-endian
bit length, to a multiple of 64 bytes. -/
def shaPad (msg : List Nat) : List Nat :=
  msg ++ 128 :: List.replicate ((64 - (msg.length + 9) % 64) % 64) 0 ++
    digitsBE 256 8 (msg.length * 8)

/-- The message schedule `W_t` of one 64-byte block. -/
def shaW (blk : List Nat) (t : Nat) : Nat :=
  if h : t < 16 then fromDigitsBE 256 ((blk.drop (4 * t)).take 4)
  else w32 (smallSigma1 (shaW blk (t - 2)) + shaW blk (t - 7) +
    smallSigma0 (shaW blk (t - 15)) + shaW blk (t - 16))
termination_by t
decreasing_by all_goals omega

/-- One round of the SHA-256 compression function. -/
def shaRound (blk : List Nat)
    (st : Nat × Nat × Nat × Nat × Nat × Nat × Nat × Nat) (t : Nat) :
    Nat × Nat × Nat × Nat × Nat × Nat × Nat × Nat :=
  match st with
  | (a, b, c, d, e, f, g, h) =>
    let T1 := w32 (h + bigSigma1 e + shaCh e f g + shaK.getD t 0 + shaW blk t)
    let T2 := w32 (bigSigma0 a + shaMaj a b c)
    (w32 (T1 + T2), a, b, c, w32 (d + T1), e, f, g)

/-- Process the 64-byte blocks of a padded message. -/
def shaBlocks (st : Nat × Nat × Nat × Nat × Nat × Nat × Nat × Nat) :
    List Nat → Nat × Nat × Nat × Nat × Nat × Nat × Nat × Nat
  | [] => st
  | x :: xs =>
    let blk := (x :: xs).take 64
    let out := (List.range 64).foldl (shaRound blk) st
    let st' := match st, out with
      | (a, b, c, d, e, f, g, h), (a', b', c', d', e', f', g', h') =>
        (w32 (a + a'), w32 (b + b'), w32 (c + c'), w32 (d + d'),
         w32 (e + e'), w32 (f + f'), w32 (g + g'), w32 (h + h'))
    shaBlocks st' ((x :: xs).drop 64)
termination_by l => l.length
decreasing_by
  simp only [List.length_drop, List.length_cons]
  omega

/-- SHA-256 of a byte list (the value of Go `sha256.Sum256`). -/
def sha256Go (msg : List Nat) : List Nat :=
  match shaBlocks (1779033703, 3144134277, 1013904242, 2773480762,
      1359893119, 2600822924, 528734635, 1541459225) (shaPad msg) with
  | (a, b, c, d, e, f, g, h) =>
    digitsBE 256 4 a ++ digitsBE 256 4 b ++ digitsBE 256 4 c ++
    digitsBE 256 4 d ++ digitsBE 256 4 e ++ digitsBE 256 4 f ++
    digitsBE 256 4 g ++ digitsBE 256 4 h

/-! ## `ciphrtxt/header.go`: `RawMessageHeader` and its codecs -/

/-- `MessageHeaderLengthV1` from header.go (the sum written there). -/
def MessageHeaderLengthV1 : Nat :=
  5 + 1 + 8 + 1 + 8 + 1 + 66 + 1 + 66 + 1 + 66 + 1 + 64 + 1 + 64

def ShortMessageHeaderLengthV2 : Nat := 123

def ShortMessageHeaderLengthB64V2 : Nat := 164

def MessageHeaderLengthV2 : Nat := 192

def MessageHeaderLengthB64V2 : Nat := 256

/-- `RawMessageHeader`: strings and byte slices as `List Nat`, `uint32`
and `uint64` fields as `Nat` (kept below their bound by every
constructor in the code).  Defaults are the Go zero values. -/
structure RawMessageHeader where
  version : List Nat := []
  time : Nat := 0
  expire : Nat := 0
  I : List Nat := []
  J : List Nat := []
  K : List Nat := []
  blocklen : Nat := 0
  reserved : Nat := 0
  r : List Nat := []
  s : List Nat := []
  nonce : Nat := 0
deriving Repr, DecidableEq

/-- Result of `Deserialize`: Go returns `error`; `panicked` models the
unrecovered runtime panic of `s[:3]` on an input shorter than 3 bytes. -/
inductive DeserializeResult
  | panicked
  | failed (msg : String)
  | ok (h : RawMessageHeader)
deriving Repr, DecidableEq

def ofExceptHeader : Except String RawMessageHeader → DeserializeResult
  | .error m => .failed m
  | .ok h => .ok h

/-- `deserializeV1` from header.go.  Splits on colons, requires 8 fields
with tag `M0100`, parses `time`/`expire` with `ParseUint` (errors
discarded), hex-decodes `I,J,K,r,s`.  On error Go leaves the receiver
partially mutated but returns non-nil; the model returns the error. -/
def RawMessageHeader.deserializeV1 (z : RawMessageHeader) (s : List Nat) :
    Except String RawMessageHeader :=
  match splitColon s with
  | [d0, d1, d2, d3, d4, d5, d6, d7] =>
    if d0 ≠ ascii "M0100" then .error "V1 version string error"
    else
      match hexDecodeGo d3, hexDecodeGo d4, hexDecodeGo d5,
          hexDecodeGo d6, hexDecodeGo d7 with
      | some I, some J, some K, some r, some s2 =>
        .ok { z with
          version := ascii "0100",
          time := goParseUintHex32 d1,
          expire := goParseUintHex32 d2,
          I := I, J := J, K := K, r := r, s := s2 }
      | none, _, _, _, _ => .error "V1 Error decoding I value as hex"
      | _, none, _, _, _ => .error "V1 Error decoding J value as hex"
      | _, _, none, _, _ => .error "V1 Error decoding K value as hex"
      | _, _, _, none, _ => .error "V1 Error decoding r value as hex"
      | _, _, _, _, none => .error "V1 Error decoding s value as hex"
  | _ => .error "V1 version string error"

/-- `importBinaryHeaderV2` from header.go. -/
def RawMessageHeader.importBinaryHeaderV2 (z : RawMessageHeader)
    (smh : List Nat) : Except String RawMessageHeader :=
  if smh.length < ShortMessageHeaderLengthV2 then .error "V2 Header too short"
  else if smh.take 4 ≠ [77, 2, 0, 0] then .error "V2 version string mismatch"
  else
    let base : RawMessageHeader := { z with
      version := ascii "0200",
      time := fromDigitsBE 256 ((smh.drop 4).take 4),
      expire := fromDigitsBE 256 ((smh.drop 8).take 4),
      I := (smh.drop 12).take 33,
      J := (smh.drop 45).take 33,
      K := (smh.drop 78).take 33,
      blocklen := fromDigitsBE 256 ((smh.drop 111).take 4),
      reserved := fromDigitsBE 256 ((smh.drop 115).take 8) }
    if MessageHeaderLengthV2 ≤ smh.length then
      .ok { base with
        r := (smh.drop 123).take 32,
        s := (smh.drop 155).take 32,
        nonce := smh.getD 187 0 * 2 ^ 32 +
          fromDigitsBE 256 ((smh.drop 188).take 4) }
    else .ok base

/-- `deserializeV2` from header.go: base64-decode the first 256 (long)
or 164 (short) characters, then import the binary header. -/
def RawMessageHeader.deserializeV2 (z : RawMessageHeader) (s : List Nat) :
    Except String RawMessageHeader :=
  if s.length < ShortMessageHeaderLengthB64V2 then .error "V2 Header too short"
  else
    let piece := if MessageHeaderLengthB64V2 ≤ s.length
      then s.take MessageHeaderLengthB64V2
      else s.take ShortMessageHeaderLengthB64V2
    match b64DecodeGo piece with
    | none => .error "V2 not in base64"
    | some smh => z.importBinaryHeaderV2 smh

/-- `Deserialize` from header.go: dispatch on the first three bytes
(`s[:3]` panics when the input is shorter than 3 bytes). -/
def RawMessageHeader.deserialize (z : RawMessageHeader) (s : List Nat) :
    DeserializeResult :=
  if s.length < 3 then .panicked
  else if s.take 3 = ascii "M01" then ofExceptHeader (z.deserializeV1 s)
  else ofExceptHeader (z.deserializeV2 s)

/-- `Deserialize` applied to a fresh (zero-valued) header, as in
`rxHeader` and in round-trip use. -/
def deserializeFresh (s : List Nat) : DeserializeResult :=
  RawMessageHeader.deserialize {} s

/-- `serializeV1` from header.go: the `fmt.Sprintf` assembly
(`"M%s:%08X:%08X:%s:%s:%s:%s:%s"`); returns `nil` (here `none`) when
the result is not exactly `MessageHeaderLengthV1` bytes. -/
def RawMessageHeader.serializeV1 (z : RawMessageHeader) : Option (List Nat) :=
  let ss := 77 :: z.version ++ 58 :: u32hexUpper z.time ++
    58 :: u32hexUpper z.expire ++ 58 :: hexEncodeGo z.I ++
    58 :: hexEncodeGo z.J ++ 58 :: hexEncodeGo z.K ++
    58 :: hexEncodeGo z.r ++ 58 :: hexEncodeGo z.s
  if ss.length = MessageHeaderLengthV1 then some ss else none

/-- `exportBinaryHeaderV2` from header.go: magic, big-endian fields,
raw blobs, the nonce as one high byte (`uint8(nonce>>32)`) plus a
big-endian `uint32`; `nil` (`none`) when not exactly 192 bytes. -/
def RawMessageHeader.exportBinaryHeaderV2 (z : RawMessageHeader) :
    Option (List Nat) :=
  let buf := [77, 2, 0, 0] ++ digitsBE 256 4 z.time ++
    digitsBE 256 4 z.expire ++ z.I ++ z.J ++ z.K ++
    digitsBE 256 4 z.blocklen ++ digitsBE 256 8 z.reserved ++
    z.r ++ z.s ++ [z.nonce / 2 ^ 32 % 256] ++
    digitsBE 256 4 (z.nonce % 2 ^ 32)
  if buf.length = MessageHeaderLengthV2 then some buf else none

/-- `serializeV2` from header.go: base64 of the exported binary header
(`none` models the nil-pointer panic when the export fails). -/
def RawMessageHeader.serializeV2 (z : RawMessageHeader) : Option (List Nat) :=
  (z.exportBinaryHeaderV2).map b64EncodeGo

/-- `Serialize` from header.go: v1 when `version == "0100"`, else v2.
`none` models the panic on a nil result of the inner serializer. -/
def RawMessageHeader.serialize (z : RawMessageHeader) : Option (List Nat) :=
  if z.version = ascii "0100" then z.serializeV1 else z.serializeV2

/-- `Hash` from header.go: `sha256.Sum256([]byte(z.Serialize()))`. -/
def RawMessageHeader.hash (z : RawMessageHeader) : Option (List Nat) :=
  (z.serialize).map sha256Go

/-- The JSON DTO built by `RawMessageHeader.JSON()`.  The
`TimeStr`/`ExpireStr` calendar renderings (Go `time.Format`) carry no
information beyond `Time`/`Expire` and are outside the model. -/
structure MessageHeaderJSONGo where
  Version : List Nat
  Time : Nat
  Expire : Nat
  I : List Nat
  J : List Nat
  K : List Nat
  Size : Nat
  R : List Nat
  S : List Nat
  Nonce : Nat
deriving Repr, DecidableEq

/-- `RawMessageHeader.JSON()` from header.go: `Size` is
`uint64(z.blocklen+1) * MessageHeaderLengthB64V2`, where `z.blocklen+1`
is computed in `uint32` and therefore wraps at `2^32`. -/
def RawMessageHeader.JSONGo (z : RawMessageHeader) : MessageHeaderJSONGo where
  Version := z.version
  Time := z.time
  Expire := z.expire
  I := hexEncodeGo z.I
  J := hexEncodeGo z.J
  K := hexEncodeGo z.K
  Size := (z.blocklen + 1) % 2 ^ 32 * MessageHeaderLengthB64V2
  R := hexEncodeGo z.r
  S := hexEncodeGo z.s
  Nonce := z.nonce

/-- The byte-comparison loop of `RawMessageHeaderSlice.Less`:
`for x := 0; x < 33; x++` comparing `I[x]`.  Go indexes the slices
directly (panicking when `I` is shorter than 33); the claims quantify
over headers whose `I` has length ≥ 33, where `getD` coincides with
direct indexing. -/
def lessILoop (aI bI : List Nat) (x : Nat) : Bool :=
  if x < 33 then
    if aI.getD x 0 < bI.getD x 0 then true
    else if bI.getD x 0 < aI.getD x 0 then false
    else lessILoop aI bI (x + 1)
  else false
termination_by 33 - x

/-- `RawMessageHeaderSlice.Less` from header.go, expressed on the two
headers `z[i]`, `z[j]` it compares: ascending `time`, then the first 33
bytes of `I` lexicographically. -/
def hdrLess (a b : RawMessageHeader) : Bool :=
  if a.time < b.time then true
  else if b.time < a.time then false
  else lessILoop a.I b.I 0

/-! ## `ciphrtxt/wsprotocol.go`: timers, caches, handler state -/

def DefaultWatchdogTimeout : Nat := 150

def DefaultTimeTickle : Nat := 30

def DefaultStatusTickle : Nat := 300

def DefaultPeersTickle : Nat := 300

/-- State of one `time.Timer`: `armed d` (running, will fire after
`d` seconds), `pending` (fired, tick still in the channel), `idle`
(stopped, or fired and drained). -/
inductive TimerState
  | armed (d : Nat)
  | pending
  | idle
deriving Repr, DecidableEq

/-- Go's `if !t.Stop() { <-t.C }; t.Reset(d)` pattern (`resetWatchdog`
and friends): re-arms an armed or pending timer; on an idle timer
`Stop` returns false and the drain `<-t.C` blocks forever (`none`). -/
def timerResetPattern (d : Nat) : TimerState → Option TimerState
  | .armed _ => some (.armed d)
  | .pending => some (.armed d)
  | .idle => none

/-- Go's `if !t.Stop() { <-t.C }` pattern in `Disconnect`: stops an
armed timer, drains a pending one, blocks forever on an idle one. -/
def timerStopPattern : TimerState → Option TimerState
  | .armed _ => some .idle
  | .pending => some .idle
  | .idle => none

inductive CacheInsertErr
  | headerExpired
deriving Repr, DecidableEq

/-- A header cache modelled as the list of headers it holds (newest
first).  Used for both the peer `HeaderCache` and the
`LocalHeaderCache`. -/
structure CacheState where
  headers : List RawMessageHeader := []
deriving Repr, DecidableEq

/-- Modelled from the spec: `HeaderCache.Insert` and
`LocalHeaderCache.Insert` (the cache implementation file is not among
the sources; spec §4.3).  Returns `(false, nil)` when a header with the
same `I` is already present (dedup against the `I0` subspace),
`(false, HeaderExpired)` when `expire ≤ now`, otherwise inserts the
header and returns `(true, nil)`. -/
def cacheInsert (now : Nat) (c : CacheState) (h : RawMessageHeader) :
    CacheState × Bool × Option CacheInsertErr :=
  if c.headers.any fun g => g.I == h.I then (c, false, none)
  else if h.expire ≤ now then (c, false, some .headerExpired)
  else ({ headers := h :: c.headers }, true, none)

/-- The mutable state of one `wsHandler` relevant to the verified
claims: the two caches, the four timers, the `OnDisconnect` callback
registration and its run count, whether the event loop is still
blocked in its select, and membership in the global
`wsHandlerList`. -/
structure WsHandlerState where
  localCache : CacheState := {}
  remote : Option CacheState := none
  watchdog : TimerState := .armed DefaultWatchdogTimeout
  timeTickle : TimerState := .armed DefaultTimeTickle
  statusTickle : TimerState := .armed DefaultStatusTickle
  peersTickle : TimerState := .armed DefaultPeersTickle
  hasDisconnectCb : Bool := false
  cbRuns : Nat := 0
  loopAlive : Bool := true
  inRegistry : Bool := true
deriving Repr, DecidableEq

/-- Outcome of a handler step: `ok`, `blocked` (a channel operation
that can never complete — the state mutated so far is carried), or
`panicked`. -/
inductive StepResult (α : Type)
  | ok (a : α)
  | blocked (a : α)
  | panicked
deriving Repr, DecidableEq

/-- `rxHeader` from wsprotocol.go: deserialize the payload into a
fresh header; on success reset the watchdog and, when a remote cache
is attached, insert there — inserting into the local cache only when
the remote insert returned `(true, nil)`.  On a deserialize error only
the log line runs.  `now` is the clock read by the cache inserts. -/
def rxHeader (now : Nat) (st : WsHandlerState) (s : List Nat) :
    StepResult WsHandlerState :=
  match deserializeFresh s with
  | .panicked => .panicked
  | .failed _ => .ok st
  | .ok rmh =>
    match timerResetPattern DefaultWatchdogTimeout st.watchdog with
    | none => .blocked st
    | some w =>
      let st1 := { st with watchdog := w }
      match st1.remote with
      | none => .ok st1
      | some rc =>
        let res := cacheInsert now rc rmh
        let st2 := { st1 with remote := some res.1 }
        if res.2.2.isSome then .ok st2
        else if res.2.1 then
          .ok { st2 with
            localCache := (cacheInsert now st2.localCache rmh).1 }
        else .ok st2

/-- `Disconnect` from wsprotocol.go: run the registered `disconnect`
callback (when set), stop-or-drain `timeTickle`, `statusTickle` and
`watchdog` (note: not `peersTickle`), send `true` on the `abort`
channel (received only while the event loop sits in its select), then
remove the handler from `wsHandlerList`, panicking when absent. -/
def wsDisconnect (st : WsHandlerState) : StepResult WsHandlerState :=
  let st0 := if st.hasDisconnectCb then { st with cbRuns := st.cbRuns + 1 }
    else st
  match timerStopPattern st0.timeTickle with
  | none => .blocked st0
  | some tt =>
    let st1 := { st0 with timeTickle := tt }
    match timerStopPattern st1.statusTickle with
    | none => .blocked st1
    | some stt =>
      let st2 := { st1 with statusTickle := stt }
      match timerStopPattern st2.watchdog with
      | none => .blocked st2
      | some wd =>
        let st3 := { st2 with watchdog := wd }
        if st3.loopAlive then
          let st4 := { st3 with loopAlive := false }
          if st4.inRegistry then .ok { st4 with inRegistry := false }
          else .panicked
        else .blocked st3

inductive LoopCase
  | watchdogFired
  | timeTickleFired
  | statusTickleFired
  | peersTickleFired
  | abortReceived
deriving Repr, DecidableEq

inductive EmittedEvent
  | requestTime
  | requestStatus
  | requestPeers
deriving Repr, DecidableEq

/-- One iteration of `eventLoop` from wsprotocol.go for the ready
select case.  Receiving from a timer channel consumes the pending tick
(the timer becomes idle); then the case body runs as written in the
source: the `timeTickle` case emits `request-time` and re-arms
`timeTickle`; the `statusTickle` case emits `request-status` and
re-arms `statusTickle`; the `peersTickle` case emits `request-peers`
and then calls `wsh.statusTickle.Reset(DefaultStatusTickle)` — it
re-arms `statusTickle`, never `peersTickle`.  The `watchdog` case
calls `Disconnect` from inside the loop goroutine (so the abort send
cannot be received).  The `abort` case ends the loop. -/
def eventLoopStep (st : WsHandlerState) :
    LoopCase → StepResult (WsHandlerState × List EmittedEvent)
  | .watchdogFired =>
    match wsDisconnect { st with watchdog := .idle, loopAlive := false } with
    | .ok s => .ok (s, [])
    | .blocked s => .blocked (s, [])
    | .panicked => .panicked
  | .timeTickleFired =>
    .ok ({ st with timeTickle := .armed DefaultTimeTickle }, [.requestTime])
  | .statusTickleFired =>
    .ok ({ st with statusTickle := .armed DefaultStatusTickle },
      [.requestStatus])
  | .peersTickleFired =>
    .ok ({ st with
      peersTickle := .idle,
      statusTickle := .armed DefaultStatusTickle }, [.requestPeers])
  | .abortReceived => .ok ({ st with loopAlive := false }, [])

/-! ## Validity of serialized headers (the spec's wire format, §4.1) -/

/-- A valid v1 ASCII serialized header, following the spec's format
description: tag `M0100`, `time` and `expire` as 8 uppercase hex
digits, `I,J,K` as 66 and `r,s` as 64 lowercase hex digits, in 8
colon-separated fields.  (The spec's own field widths sum to 354
characters, not the 338 it also states; see the C3 artifacts.) -/
def validV1 (s : List Nat) : Bool :=
  match splitColon s with
  | [d0, d1, d2, d3, d4, d5, d6, d7] =>
    d0 == ascii "M0100" &&
    d1.length == 8 && d1.all isUcHexDigit &&
    d2.length == 8 && d2.all isUcHexDigit &&
    d3.length == 66 && d3.all isLcHexDigit &&
    d4.length == 66 && d4.all isLcHexDigit &&
    d5.length == 66 && d5.all isLcHexDigit &&
    d6.length == 64 && d6.all isLcHexDigit &&
    d7.length == 64 && d7.all isLcHexDigit
  | _ => false

/-- A valid v2 base64 long-form serialized header: 256 characters of
the standard base64 alphabet decoding to bytes that begin with the
magic `M\x02\x00\x00`. -/
def validV2Long (s : List Nat) : Bool :=
  s.length == 256 && s.all isB64Char &&
  match b64DecodeGo s with
  | some smh => smh.take 4 == [77, 2, 0, 0]
  | none => false

/-- A valid v2 base64 short-form serialized header: 164 characters of
the standard base64 alphabet decoding to bytes that begin with the
magic `M\x02\x00\x00`. -/
def validV2Short (s : List Nat) : Bool :=
  s.length == 164 && s.all isB64Char &&
  match b64DecodeGo s with
  | some smh => smh.take 4 == [77, 2, 0, 0]
  | none => false

/-! ## Shape of the v1 serialization -/

theorem u32hexUpper_length (n : Nat) : (u32hexUpper n).length = 8 := by
  simp [u32hexUpper, digitsBE_length]

theorem u32hexUpper_ne_colon (n : Nat) : ∀ c ∈ u32hexUpper n, c ≠ 58 := by
  intro c hc
  simp only [u32hexUpper, List.mem_map] at hc
  obtain ⟨d, hd, rfl⟩ := hc
  exact hexUcChar_ne_colon d (digitsBE_lt 16 8 n (by omega) d hd)

theorem u32hexUpper_allUc (n : Nat) :
    ∀ c ∈ u32hexUpper n, isUcHexDigit c = true := by
  intro c hc
  simp only [u32hexUpper, List.mem_map] at hc
  obtain ⟨d, hd, rfl⟩ := hc
  have hlt := digitsBE_lt 16 8 n (by omega) d hd
  unfold isUcHexDigit hexUcChar
  split <;> simp <;> omega

theorem hexEncodeGo_ne_colon (bs : List Nat) :
    ∀ c ∈ hexEncodeGo bs, c ≠ 58 := by
  induction bs with
  | nil => simp [hexEncodeGo]
  | cons b bs ih =>
    intro c hc
    simp only [hexEncodeGo, List.mem_cons] at hc
    rcases hc with h | h | h
    · subst h; exact hexLcChar_ne_colon _
    · subst h; exact hexLcChar_ne_colon _
    · exact ih c h

theorem hexEncodeGo_allLc (bs : List Nat) :
    ∀ c ∈ hexEncodeGo bs, isLcHexDigit c = true := by
  induction bs with
  | nil => simp [hexEncodeGo]
  | cons b bs ih =>
    intro c hc
    simp only [hexEncodeGo, List.mem_cons] at hc
    rcases hc with h | h | h
    · subst h; exact hexLcChar_isLc _ (Nat.mod_lt _ (by omega))
    · subst h; exact hexLcChar_isLc _ (Nat.mod_lt _ (by omega))
    · exact ih c h

/-- The string assembled by `serializeV1`. -/
def v1String (h : RawMessageHeader) : List Nat :=
  77 :: h.version ++ 58 :: u32hexUpper h.time ++
    58 :: u32hexUpper h.expire ++ 58 :: hexEncodeGo h.I ++
    58 :: hexEncodeGo h.J ++ 58 :: hexEncodeGo h.K ++
    58 :: hexEncodeGo h.r ++ 58 :: hexEncodeGo h.s

theorem v1String_length (h : RawMessageHeader) (hver : h.version.length = 4)
    (hI : h.I.length = 33) (hJ : h.J.length = 33) (hK : h.K.length = 33)
    (hr : h.r.length = 32) (hs : h.s.length = 32) :
    (v1String h).length = 354 := by
  simp [v1String, List.length_append, hexEncodeGo_length, u32hexUpper_length,
    hver, hI, hJ, hK, hr, hs]

theorem serializeV1_eq (h : RawMessageHeader) (hver : h.version.length = 4)
    (hI : h.I.length = 33) (hJ : h.J.length = 33) (hK : h.K.length = 33)
    (hr : h.r.length = 32) (hs : h.s.length = 32) :
    h.serializeV1 = some (v1String h) := by
  unfold RawMessageHeader.serializeV1
  rw [if_pos]
  · rfl
  · show (v1String h).length = MessageHeaderLengthV1
    rw [v1String_length h hver hI hJ hK hr hs]
    rfl

theorem v1String_split (h : RawMessageHeader)
    (hver : ∀ c ∈ h.version, c ≠ 58) :
    splitColon (v1String h) =
      [77 :: h.version, u32hexUpper h.time, u32hexUpper h.expire,
       hexEncodeGo h.I, hexEncodeGo h.J, hexEncodeGo h.K,
       hexEncodeGo h.r, hexEncodeGo h.s] := by
  have hd0 : ∀ c ∈ 77 :: h.version, c ≠ 58 := by
    intro c hc
    rcases List.mem_cons.mp hc with hh | hh
    · omega
    · exact hver c hh
  have e : v1String h = (77 :: h.version) ++ 58 ::
      (u32hexUpper h.time ++ 58 :: (u32hexUpper h.expire ++ 58 ::
      (hexEncodeGo h.I ++ 58 :: (hexEncodeGo h.J ++ 58 ::
      (hexEncodeGo h.K ++ 58 :: (hexEncodeGo h.r ++ 58 ::
      hexEncodeGo h.s)))))) := by
    simp [v1String]
  rw [e, splitColon_field _ _ hd0,
    splitColon_field _ _ (u32hexUpper_ne_colon h.time),
    splitColon_field _ _ (u32hexUpper_ne_colon h.expire),
    splitColon_field _ _ (hexEncodeGo_ne_colon h.I),
    splitColon_field _ _ (hexEncodeGo_ne_colon h.J),
    splitColon_field _ _ (hexEncodeGo_ne_colon h.K),
    splitColon_field _ _ (hexEncodeGo_ne_colon h.r),
    splitColon_free _ (hexEncodeGo_ne_colon h.s)]

theorem ascii_M01 : ascii "M01" = [77, 48, 49] := by decide

theorem ascii_0100 : ascii "0100" = [48, 49, 48, 48] := by decide

theorem ascii_M0100 : ascii "M0100" = [77, 48, 49, 48, 48] := by decide

/-- Parsing the v1 serialization recovers the serialized fields (into
any receiver `z`; `blocklen`, `reserved`, `nonce` keep the receiver's
values because `deserializeV1` never writes them). -/
theorem deserialize_v1String (z h : RawMessageHeader)
    (hver : h.version = ascii "0100")
    (hI : h.I.length = 33) (hJ : h.J.length = 33) (hK : h.K.length = 33)
    (hr : h.r.length = 32) (hs : h.s.length = 32)
    (htime : h.time < 2 ^ 32) (hexp : h.expire < 2 ^ 32)
    (hIb : ∀ b ∈ h.I, b < 256) (hJb : ∀ b ∈ h.J, b < 256)
    (hKb : ∀ b ∈ h.K, b < 256) (hrb : ∀ b ∈ h.r, b < 256)
    (hsb : ∀ b ∈ h.s, b < 256) :
    RawMessageHeader.deserialize z (v1String h) = .ok { z with
      version := ascii "0100", time := h.time, expire := h.expire,
      I := h.I, J := h.J, K := h.K, r := h.r, s := h.s } := by
  have hlen : (v1String h).length = 354 :=
    v1String_length h (by rw [hver]; rfl) hI hJ hK hr hs
  have htake : (v1String h).take 3 = ascii "M01" := by
    simp [v1String, hver, ascii_0100, ascii_M01]
  unfold RawMessageHeader.deserialize
  rw [if_neg (by omega), if_pos htake]
  unfold RawMessageHeader.deserializeV1
  rw [v1String_split h (by rw [hver]; decide)]
  simp only [hver, ascii_0100, ascii_M0100,
    hexDecode_hexEncode h.I hIb, hexDecode_hexEncode h.J hJb,
    hexDecode_hexEncode h.K hKb, hexDecode_hexEncode h.r hrb,
    hexDecode_hexEncode h.s hsb,
    goParseUintHex32_u32hexUpper h.time htime,
    goParseUintHex32_u32hexUpper h.expire hexp]
  rw [if_neg (by decide)]
  rfl

/-! ## Shape of the v2 serialization -/

/-- The 192-byte binary layout assembled by `exportBinaryHeaderV2`. -/
def v2Binary (h : RawMessageHeader) : List Nat :=
  [77, 2, 0, 0] ++ digitsBE 256 4 h.time ++ digitsBE 256 4 h.expire ++
  h.I ++ h.J ++ h.K ++ digitsBE 256 4 h.blocklen ++
  digitsBE 256 8 h.reserved ++ h.r ++ h.s ++
  [h.nonce / 2 ^ 32 % 256] ++ digitsBE 256 4 (h.nonce % 2 ^ 32)

theorem v2Binary_length (h : RawMessageHeader)
    (hI : h.I.length = 33) (hJ : h.J.length = 33) (hK : h.K.length = 33)
    (hr : h.r.length = 32) (hs : h.s.length = 32) :
    (v2Binary h).length = 192 := by
  simp [v2Binary, List.length_append, digitsBE_length, hI, hJ, hK, hr, hs]

theorem v2Binary_bytes (h : RawMessageHeader)
    (hIb : ∀ b ∈ h.I, b < 256) (hJb : ∀ b ∈ h.J, b < 256)
    (hKb : ∀ b ∈ h.K, b < 256) (hrb : ∀ b ∈ h.r, b < 256)
    (hsb : ∀ b ∈ h.s, b < 256) :
    ∀ b ∈ v2Binary h, b < 256 := by
  intro b hb
  simp only [v2Binary, List.mem_append, List.mem_cons, List.mem_singleton,
    List.not_mem_nil, or_false] at hb
  rcases hb with ((((((((((h1 | h2) | h3) | h4) | h5) | h6) | h7) | h8)
      | h9) | h10) | h11) | h12
  · rcases h1 with h | h | h | h <;> omega
  · exact digitsBE_lt 256 4 h.time (by omega) b h2
  · exact digitsBE_lt 256 4 h.expire (by omega) b h3
  · exact hIb b h4
  · exact hJb b h5
  · exact hKb b h6
  · exact digitsBE_lt 256 4 h.blocklen (by omega) b h7
  · exact digitsBE_lt 256 8 h.reserved (by omega) b h8
  · exact hrb b h9
  · exact hsb b h10
  · subst h11; exact Nat.mod_lt _ (by omega)
  · exact digitsBE_lt 256 4 (h.nonce % 2 ^ 32) (by omega) b h12

theorem exportBinaryHeaderV2_eq (h : RawMessageHeader)
    (hI : h.I.length = 33) (hJ : h.J.length = 33) (hK : h.K.length = 33)
    (hr : h.r.length = 32) (hs : h.s.length = 32) :
    h.exportBinaryHeaderV2 = some (v2Binary h) := by
  unfold RawMessageHeader.exportBinaryHeaderV2
  rw [if_pos]
  · rfl
  · show (v2Binary h).length = MessageHeaderLengthV2
    rw [v2Binary_length h hI hJ hK hr hs]
    rfl

theorem getD_of_drop_cons {l rest : List Nat} {n b : Nat}
    (h : l.drop n = b :: rest) : l.getD n 0 = b := by
  induction n generalizing l with
  | zero =>
    simp only [List.drop_zero] at h
    subst h
    rfl
  | succ n ih =>
    cases l with
    | nil => simp at h
    | cons c l' =>
      simp only [List.drop_succ_cons] at h
      simpa [List.getD] using ih h

/-- Importing the exported v2 binary layout recovers the fields (into
any receiver `z`); the nonce comes back as its low 40 bits. -/
theorem importBinary_v2Binary (z h : RawMessageHeader)
    (hI : h.I.length = 33) (hJ : h.J.length = 33) (hK : h.K.length = 33)
    (hr : h.r.length = 32) (hs : h.s.length = 32)
    (htime : h.time < 2 ^ 32) (hexp : h.expire < 2 ^ 32)
    (hbl : h.blocklen < 2 ^ 32) (hres : h.reserved < 2 ^ 64) :
    RawMessageHeader.importBinaryHeaderV2 z (v2Binary h) = .ok { z with
      version := ascii "0200", time := h.time, expire := h.expire,
      I := h.I, J := h.J, K := h.K, blocklen := h.blocklen,
      reserved := h.reserved, r := h.r, s := h.s,
      nonce := h.nonce / 2 ^ 32 % 256 * 2 ^ 32 + h.nonce % 2 ^ 32 } := by
  have hlen : (v2Binary h).length = 192 := v2Binary_length h hI hJ hK hr hs
  have e4 : v2Binary h = ([77, 2, 0, 0] ++ digitsBE 256 4 h.time) ++
      (digitsBE 256 4 h.expire ++ (h.I ++ (h.J ++ (h.K ++
      (digitsBE 256 4 h.blocklen ++ (digitsBE 256 8 h.reserved ++
      (h.r ++ (h.s ++ ([h.nonce / 2 ^ 32 % 256] ++
      digitsBE 256 4 (h.nonce % 2 ^ 32)))))))))) := by
    simp [v2Binary]
  have hd4 : (v2Binary h).drop 4 = digitsBE 256 4 h.time ++
      (digitsBE 256 4 h.expire ++ (h.I ++ (h.J ++ (h.K ++
      (digitsBE 256 4 h.blocklen ++ (digitsBE 256 8 h.reserved ++
      (h.r ++ (h.s ++ ([h.nonce / 2 ^ 32 % 256] ++
      digitsBE 256 4 (h.nonce % 2 ^ 32)))))))))) := by
    have e0 : v2Binary h = [77, 2, 0, 0] ++ (digitsBE 256 4 h.time ++
        (digitsBE 256 4 h.expire ++ (h.I ++ (h.J ++ (h.K ++
        (digitsBE 256 4 h.blocklen ++ (digitsBE 256 8 h.reserved ++
        (h.r ++ (h.s ++ ([h.nonce / 2 ^ 32 % 256] ++
        digitsBE 256 4 (h.nonce % 2 ^ 32))))))))))) := by
      simp [v2Binary]
    rw [e0]
    exact List.drop_left' rfl
  have hd8 : (v2Binary h).drop 8 = digitsBE 256 4 h.expire ++ (h.I ++
      (h.J ++ (h.K ++ (digitsBE 256 4 h.blocklen ++
      (digitsBE 256 8 h.reserved ++ (h.r ++ (h.s ++
      ([h.nonce / 2 ^ 32 % 256] ++
      digitsBE 256 4 (h.nonce % 2 ^ 32))))))))) := by
    rw [e4]
    exact List.drop_left' (by simp [digitsBE_length])
  have hd12 : (v2Binary h).drop 12 = h.I ++ (h.J ++ (h.K ++
      (digitsBE 256 4 h.blocklen ++ (digitsBE 256 8 h.reserved ++
      (h.r ++ (h.s ++ ([h.nonce / 2 ^ 32 % 256] ++
      digitsBE 256 4 (h.nonce % 2 ^ 32)))))))) := by
    have e12 : v2Binary h = (([77, 2, 0, 0] ++ digitsBE 256 4 h.time) ++
        digitsBE 256 4 h.expire) ++ (h.I ++ (h.J ++ (h.K ++
        (digitsBE 256 4 h.blocklen ++ (digitsBE 256 8 h.reserved ++
        (h.r ++ (h.s ++ ([h.nonce / 2 ^ 32 % 256] ++
        digitsBE 256 4 (h.nonce % 2 ^ 32))))))))) := by
      simp [v2Binary]
    rw [e12]
    exact List.drop_left' (by simp [digitsBE_length])
  have hd45 : (v2Binary h).drop 45 = h.J ++ (h.K ++
      (digitsBE 256 4 h.blocklen ++ (digitsBE 256 8 h.reserved ++
      (h.r ++ (h.s ++ ([h.nonce / 2 ^ 32 % 256] ++
      digitsBE 256 4 (h.nonce % 2 ^ 32))))))) := by
    have e45 : v2Binary h = ((([77, 2, 0, 0] ++ digitsBE 256 4 h.time) ++
        digitsBE 256 4 h.expire) ++ h.I) ++ (h.J ++ (h.K ++
        (digitsBE 256 4 h.blocklen ++ (digitsBE 256 8 h.reserved ++
        (h.r ++ (h.s ++ ([h.nonce / 2 ^ 32 % 256] ++
        digitsBE 256 4 (h.nonce % 2 ^ 32)))))))) := by
      simp [v2Binary]
    rw [e45]
    exact List.drop_left' (by simp [digitsBE_length, hI])
  have hd78 : (v2Binary h).drop 78 = h.K ++
      (digitsBE 256 4 h.blocklen ++ (digitsBE 256 8 h.reserved ++
      (h.r ++ (h.s ++ ([h.nonce / 2 ^ 32 % 256] ++
      digitsBE 256 4 (h.nonce % 2 ^ 32)))))) := by
    have e78 : v2Binary h = (((([77, 2, 0, 0] ++ digitsBE 256 4 h.time) ++
        digitsBE 256 4 h.expire) ++ h.I) ++ h.J) ++ (h.K ++
        (digitsBE 256 4 h.blocklen ++ (digitsBE 256 8 h.reserved ++
        (h.r ++ (h.s ++ ([h.nonce / 2 ^ 32 % 256] ++
        digitsBE 256 4 (h.nonce % 2 ^ 32))))))) := by
      simp [v2Binary]
    rw [e78]
    exact List.drop_left' (by simp [digitsBE_length, hI, hJ])
  have hd111 : (v2Binary h).drop 111 = digitsBE 256 4 h.blocklen ++
      (digitsBE 256 8 h.reserved ++ (h.r ++ (h.s ++
      ([h.nonce / 2 ^ 32 % 256] ++
      digitsBE 256 4 (h.nonce % 2 ^ 32))))) := by
    have e111 : v2Binary h = ((((([77, 2, 0, 0] ++ digitsBE 256 4 h.time) ++
        digitsBE 256 4 h.expire) ++ h.I) ++ h.J) ++ h.K) ++
        (digitsBE 256 4 h.blocklen ++ (digitsBE 256 8 h.reserved ++
        (h.r ++ (h.s ++ ([h.nonce / 2 ^ 32 % 256] ++
        digitsBE 256 4 (h.nonce % 2 ^ 32)))))) := by
      simp [v2Binary]
    rw [e111]
    exact List.drop_left' (by simp [digitsBE_length, hI, hJ, hK])
  have hd115 : (v2Binary h).drop 115 = digitsBE 256 8 h.reserved ++
      (h.r ++ (h.s ++ ([h.nonce / 2 ^ 32 % 256] ++
      digitsBE 256 4 (h.nonce % 2 ^ 32)))) := by
    have e115 : v2Binary h = (((((([77, 2, 0, 0] ++
        digitsBE 256 4 h.time) ++ digitsBE 256 4 h.expire) ++ h.I) ++
        h.J) ++ h.K) ++ digitsBE 256 4 h.blocklen) ++
        (digitsBE 256 8 h.reserved ++ (h.r ++ (h.s ++
        ([h.nonce / 2 ^ 32 % 256] ++
        digitsBE 256 4 (h.nonce % 2 ^ 32))))) := by
      simp [v2Binary]
    rw [e115]
    exact List.drop_left' (by simp [digitsBE_length, hI, hJ, hK])
  have hd123 : (v2Binary h).drop 123 = h.r ++ (h.s ++
      ([h.nonce / 2 ^ 32 % 256] ++
      digitsBE 256 4 (h.nonce % 2 ^ 32))) := by
    have e123 : v2Binary h = ((((((([77, 2, 0, 0] ++
        digitsBE 256 4 h.time) ++ digitsBE 256 4 h.expire) ++ h.I) ++
        h.J) ++ h.K) ++ digitsBE 256 4 h.blocklen) ++
        digitsBE 256 8 h.reserved) ++ (h.r ++ (h.s ++
        ([h.nonce / 2 ^ 32 % 256] ++
        digitsBE 256 4 (h.nonce % 2 ^ 32)))) := by
      simp [v2Binary]
    rw [e123]
    exact List.drop_left' (by simp [digitsBE_length, hI, hJ, hK])
  have hd155 : (v2Binary h).drop 155 = h.s ++
      ([h.nonce / 2 ^ 32 % 256] ++
      digitsBE 256 4 (h.nonce % 2 ^ 32)) := by
    have e155 : v2Binary h = (((((((([77, 2, 0, 0] ++
        digitsBE 256 4 h.time) ++ digitsBE 256 4 h.expire) ++ h.I) ++
        h.J) ++ h.K) ++ digitsBE 256 4 h.blocklen) ++
        digitsBE 256 8 h.reserved) ++ h.r) ++ (h.s ++
        ([h.nonce / 2 ^ 32 % 256] ++
        digitsBE 256 4 (h.nonce % 2 ^ 32))) := by
      simp [v2Binary]
    rw [e155]
    exact List.drop_left' (by simp [digitsBE_length, hI, hJ, hK, hr])
  have hd187 : (v2Binary h).drop 187 = h.nonce / 2 ^ 32 % 256 ::
      digitsBE 256 4 (h.nonce % 2 ^ 32) := by
    have hdd : (v2Binary h).drop 187 = ((v2Binary h).drop 155).drop 32 := by
      rw [List.drop_drop]
    rw [hdd, hd155, List.drop_left' hs]
    simp
  have hd188 : (v2Binary h).drop 188 = digitsBE 256 4 (h.nonce % 2 ^ 32) := by
    have : (v2Binary h).drop 188 = ((v2Binary h).drop 187).drop 1 := by
      rw [List.drop_drop]
    rw [this, hd187]
    rfl
  have htk4 : (v2Binary h).take 4 = [77, 2, 0, 0] := by
    unfold v2Binary
    simp only [List.append_assoc]
    exact List.take_left' rfl
  have f1 : ((v2Binary h).drop 4).take 4 = digitsBE 256 4 h.time := by
    rw [hd4]
    exact List.take_left' (digitsBE_length 256 4 h.time)
  have f2 : ((v2Binary h).drop 8).take 4 = digitsBE 256 4 h.expire := by
    rw [hd8]
    exact List.take_left' (digitsBE_length 256 4 h.expire)
  have fI : ((v2Binary h).drop 12).take 33 = h.I := by
    rw [hd12]
    exact List.take_left' hI
  have fJ : ((v2Binary h).drop 45).take 33 = h.J := by
    rw [hd45]
    exact List.take_left' hJ
  have fK : ((v2Binary h).drop 78).take 33 = h.K := by
    rw [hd78]
    exact List.take_left' hK
  have fbl : ((v2Binary h).drop 111).take 4 = digitsBE 256 4 h.blocklen := by
    rw [hd111]
    exact List.take_left' (digitsBE_length 256 4 h.blocklen)
  have fres : ((v2Binary h).drop 115).take 8 = digitsBE 256 8 h.reserved := by
    rw [hd115]
    exact List.take_left' (digitsBE_length 256 8 h.reserved)
  have fr : ((v2Binary h).drop 123).take 32 = h.r := by
    rw [hd123]
    exact List.take_left' hr
  have fs' : ((v2Binary h).drop 155).take 32 = h.s := by
    rw [hd155]
    exact List.take_left' hs
  have fnb : (v2Binary h).getD 187 0 = h.nonce / 2 ^ 32 % 256 :=
    getD_of_drop_cons hd187
  have fn4 : ((v2Binary h).drop 188).take 4 =
      digitsBE 256 4 (h.nonce % 2 ^ 32) := by
    rw [hd188]
    exact List.take_of_length_le (le_of_eq (digitsBE_length 256 4 _))
  have hp4 : (256 : Nat) ^ 4 = 2 ^ 32 := by norm_num
  have hp8 : (256 : Nat) ^ 8 = 2 ^ 64 := by norm_num
  unfold RawMessageHeader.importBinaryHeaderV2
  rw [if_neg (by rw [hlen]; decide), if_neg (by rw [htk4]; decide)]
  rw [hlen]
  rw [if_pos (by decide)]
  simp only [f1, f2, fI, fJ, fK, fbl, fres, fr, fs', fnb, fn4,
    fromDigitsBE_digitsBE 256 4 h.time (by rw [hp4]; exact htime),
    fromDigitsBE_digitsBE 256 4 h.expire (by rw [hp4]; exact hexp),
    fromDigitsBE_digitsBE 256 4 h.blocklen (by rw [hp4]; exact hbl),
    fromDigitsBE_digitsBE 256 8 h.reserved (by rw [hp8]; exact hres),
    fromDigitsBE_digitsBE 256 4 (h.nonce % 2 ^ 32)
      (by rw [hp4]; exact Nat.mod_lt _ (by omega))]

theorem b64Encode_magic_take3 (R : List Nat) :
    (b64EncodeGo (77 :: 2 :: 0 :: 0 :: R)).take 3 = [84, 81, 73] := by
  simp [b64EncodeGo, b64Char]

theorem serialize_v1_eq (h : RawMessageHeader)
    (hver : h.version = ascii "0100")
    (hI : h.I.length = 33) (hJ : h.J.length = 33) (hK : h.K.length = 33)
    (hr : h.r.length = 32) (hs : h.s.length = 32) :
    h.serialize = some (v1String h) := by
  unfold RawMessageHeader.serialize
  rw [if_pos hver]
  exact serializeV1_eq h (by rw [hver]; rfl) hI hJ hK hr hs

theorem serialize_v2_eq (h : RawMessageHeader)
    (hver : h.version ≠ ascii "0100")
    (hI : h.I.length = 33) (hJ : h.J.length = 33) (hK : h.K.length = 33)
    (hr : h.r.length = 32) (hs : h.s.length = 32) :
    h.serialize = some (b64EncodeGo (v2Binary h)) := by
  unfold RawMessageHeader.serialize
  rw [if_neg hver]
  unfold RawMessageHeader.serializeV2
  rw [exportBinaryHeaderV2_eq h hI hJ hK hr hs]
  rfl

theorem b64Encode_v2Binary_length (h : RawMessageHeader)
    (hI : h.I.length = 33) (hJ : h.J.length = 33) (hK : h.K.length = 33)
    (hr : h.r.length = 32) (hs : h.s.length = 32) :
    (b64EncodeGo (v2Binary h)).length = 256 := by
  have hlen : (v2Binary h).length = 192 := v2Binary_length h hI hJ hK hr hs
  rw [b64EncodeGo_length3 _ (by rw [hlen]), hlen]

/-- Parsing the v2 serialization recovers the serialized fields (into
any receiver `z`); the nonce comes back reduced to its low 40 bits. -/
theorem deserialize_v2Encoded (z h : RawMessageHeader)
    (hI : h.I.length = 33) (hJ : h.J.length = 33) (hK : h.K.length = 33)
    (hr : h.r.length = 32) (hs : h.s.length = 32)
    (htime : h.time < 2 ^ 32) (hexp : h.expire < 2 ^ 32)
    (hbl : h.blocklen < 2 ^ 32) (hres : h.reserved < 2 ^ 64)
    (hIb : ∀ b ∈ h.I, b < 256) (hJb : ∀ b ∈ h.J, b < 256)
    (hKb : ∀ b ∈ h.K, b < 256) (hrb : ∀ b ∈ h.r, b < 256)
    (hsb : ∀ b ∈ h.s, b < 256) :
    RawMessageHeader.deserialize z (b64EncodeGo (v2Binary h)) = .ok { z with
      version := ascii "0200", time := h.time, expire := h.expire,
      I := h.I, J := h.J, K := h.K, blocklen := h.blocklen,
      reserved := h.reserved, r := h.r, s := h.s,
      nonce := h.nonce / 2 ^ 32 % 256 * 2 ^ 32 + h.nonce % 2 ^ 32 } := by
  have hlen192 : (v2Binary h).length = 192 := v2Binary_length h hI hJ hK hr hs
  have hlen256 : (b64EncodeGo (v2Binary h)).length = 256 :=
    b64Encode_v2Binary_length h hI hJ hK hr hs
  have hR : v2Binary h = 77 :: 2 :: 0 :: 0 :: (digitsBE 256 4 h.time ++
      (digitsBE 256 4 h.expire ++ (h.I ++ (h.J ++ (h.K ++
      (digitsBE 256 4 h.blocklen ++ (digitsBE 256 8 h.reserved ++
      (h.r ++ (h.s ++ h.nonce / 2 ^ 32 % 256 ::
      digitsBE 256 4 (h.nonce % 2 ^ 32)))))))))) := by
    simp [v2Binary]
  have htk3 : (b64EncodeGo (v2Binary h)).take 3 = [84, 81, 73] := by
    rw [hR]
    exact b64Encode_magic_take3 _
  have hdec : b64DecodeGo (b64EncodeGo (v2Binary h)) = some (v2Binary h) :=
    b64DecodeGo_encode _ (by rw [hlen192])
      (v2Binary_bytes h hIb hJb hKb hrb hsb)
  unfold RawMessageHeader.deserialize
  rw [if_neg (by rw [hlen256]; omega), if_neg (by rw [htk3]; decide)]
  unfold RawMessageHeader.deserializeV2
  rw [if_neg (by rw [hlen256]; decide)]
  rw [if_pos (by rw [hlen256]; decide)]
  rw [List.take_of_length_le (by rw [hlen256]; decide)]
  simp only [hdec]
  rw [importBinary_v2Binary z h hI hJ hK hr hs htime hexp hbl hres]
  rfl

/-! ## Claim artifacts -/

/-- A concrete v1 header (the S1 scenario times, zero-filled points). -/
def hdrV1Ex : RawMessageHeader :=
  { version := ascii "0100", time := 0x585C9E80, expire := 0x5860F980,
    I := List.replicate 33 2, J := List.replicate 33 3,
    K := List.replicate 33 4, r := List.replicate 32 5,
    s := List.replicate 32 6 }

/-- C3 counterexample: a v1 header with the format's field widths
serializes to 354 characters, not the 338 the claim states. -/
theorem C3_serializedLength_counterexample :
    (RawMessageHeader.serialize hdrV1Ex).map List.length = some 354 ∧
    354 ≠ 338 := by
  constructor
  · decide
  · decide

/-- C3 (amended): every valid v1 serialization consists of exactly 8
colon-separated fields and is exactly 354 characters long: for every v1
header (version `"0100"`, 32-bit `time` and `expire`, 33-byte `I`, `J`,
`K`, 32-byte `r`, `s`), `Serialize` returns a string of length 354 with
exactly 8 colon-separated fields. -/
theorem C3_v1SerializedShape (h : RawMessageHeader)
    (hver : h.version = ascii "0100")
    (hI : h.I.length = 33) (hJ : h.J.length = 33) (hK : h.K.length = 33)
    (hr : h.r.length = 32) (hs : h.s.length = 32) :
    ∃ s, h.serialize = some s ∧ s.length = 354 ∧
      (splitColon s).length = 8 := by
  refine ⟨v1String h, serialize_v1_eq h hver hI hJ hK hr hs, ?_, ?_⟩
  · exact v1String_length h (by rw [hver]; rfl) hI hJ hK hr hs
  · rw [v1String_split h (by rw [hver]; decide)]
    rfl

/-- Witness for C3 at a concrete header. -/
theorem C3_v1SerializedShape_witness :
    hdrV1Ex.version = ascii "0100" ∧
    ∃ s, hdrV1Ex.serialize = some s ∧ s.length = 354 ∧
      (splitColon s).length = 8 :=
  ⟨rfl, C3_v1SerializedShape hdrV1Ex rfl (by decide) (by decide) (by decide)
    (by decide) (by decide)⟩

/-- A header whose `blocklen` is the maximal `uint32` value. -/
def hdrBlkMax : RawMessageHeader := { blocklen := 2 ^ 32 - 1 }

/-- C9 counterexample: at `blocklen = 2^32 - 1` the JSON `Size` is 0,
because `z.blocklen + 1` is computed in `uint32` and wraps, while
`(blocklen + 1) × 256` is `2^40`. -/
theorem C9_sizeOverflow_counterexample :
    (RawMessageHeader.JSONGo hdrBlkMax).Size = 0 ∧
    (2 ^ 32 - 1 + 1) * 256 = 2 ^ 40 ∧ (0 : Nat) ≠ 2 ^ 40 := by
  refine ⟨?_, by norm_num, by norm_num⟩
  show (hdrBlkMax.blocklen + 1) % 2 ^ 32 * MessageHeaderLengthB64V2 = 0
  norm_num [hdrBlkMax]

/-- C9 (amended): for every header with a 32-bit `blocklen`, the JSON
`Size` field equals `((blocklen + 1) mod 2^32) × 256`; hence it equals
`(blocklen + 1) × 256` whenever `blocklen < 2^32 - 1`, and is 0 at
`blocklen = 2^32 - 1`. -/
theorem C9_jsonSize (z : RawMessageHeader) (hbl : z.blocklen < 2 ^ 32) :
    (z.JSONGo).Size = (z.blocklen + 1) % 2 ^ 32 * 256 ∧
    (z.blocklen + 1 < 2 ^ 32 → (z.JSONGo).Size = (z.blocklen + 1) * 256) ∧
    (z.blocklen = 2 ^ 32 - 1 → (z.JSONGo).Size = 0) := by
  refine ⟨rfl, ?_, ?_⟩
  · intro hlt
    show (z.blocklen + 1) % 2 ^ 32 * MessageHeaderLengthB64V2 = _
    rw [Nat.mod_eq_of_lt hlt]
    rfl
  · intro heq
    show (z.blocklen + 1) % 2 ^ 32 * MessageHeaderLengthB64V2 = 0
    rw [heq]
    norm_num

/-- Witness for C9 at `blocklen = 5`. -/
theorem C9_jsonSize_witness :
    (5 : Nat) < 2 ^ 32 ∧
    (RawMessageHeader.JSONGo { blocklen := 5 }).Size = 6 * 256 :=
  ⟨by norm_num,
   (C9_jsonSize { blocklen := 5 } (by norm_num)).2.1 (by norm_num)⟩

/-- C8: the `peersTickle` case of the event loop emits `request-peers`
but then re-arms `statusTickle` (to its 300 s default), leaving the
just-fired `peersTickle` timer disarmed — so `request-peers` is not
periodic and the `statusTickle` timer is postponed. -/
theorem C8_peersTickleCase (st : WsHandlerState) :
    eventLoopStep st .peersTickleFired =
      .ok ({ st with
        peersTickle := .idle,
        statusTickle := .armed DefaultStatusTickle }, [.requestPeers]) ∧
    (∀ d, TimerState.idle ≠ .armed d) := by
  exact ⟨rfl, fun d => by simp⟩

theorem timerStopPattern_of_ne (t : TimerState) (h : t ≠ .idle) :
    timerStopPattern t = some .idle := by
  cases t with
  | armed d => rfl
  | pending => rfl
  | idle => exact absurd rfl h

/-- A freshly connected handler with a registered `OnDisconnect`. -/
def wsConnEx : WsHandlerState := { hasDisconnectCb := true }

/-- The state after the first `Disconnect` of `wsConnEx`. -/
def wsAfter1 : WsHandlerState :=
  { hasDisconnectCb := true, cbRuns := 1, timeTickle := .idle,
    statusTickle := .idle, watchdog := .idle, loopAlive := false,
    inRegistry := false }

/-- C7 counterexample: after one completed `Disconnect`, a second call
runs the `OnDisconnect` callback a second time and then blocks forever
draining the already-stopped `timeTickle` timer channel — it neither
completes nor leaves the teardown at one run. -/
theorem C7_secondDisconnect_counterexample :
    wsDisconnect wsConnEx = .ok wsAfter1 ∧
    wsDisconnect wsAfter1 = .blocked { wsAfter1 with cbRuns := 2 } ∧
    ({ wsAfter1 with cbRuns := 2 } : WsHandlerState).cbRuns = 2 := by
  refine ⟨by decide, by decide, rfl⟩

/-- C7 (amended): `Disconnect` is a one-shot teardown, not idempotent.
From a connected state (tickles and watchdog not yet stopped, event
loop alive, handler registered) the first call completes: it runs the
registered callback once, stops `timeTickle`, `statusTickle` and the
watchdog (`peersTickle` is never stopped), aborts the event loop and
removes the handler from the registry.  A second call then runs the
callback again and blocks forever draining the already-idle
`timeTickle`; no other state changes. -/
theorem C7_disconnectOnce (st : WsHandlerState)
    (h1 : st.timeTickle ≠ .idle) (h2 : st.statusTickle ≠ .idle)
    (h3 : st.watchdog ≠ .idle) (h4 : st.loopAlive = true)
    (h5 : st.inRegistry = true) :
    wsDisconnect st = .ok { st with
      cbRuns := st.cbRuns + (if st.hasDisconnectCb then 1 else 0),
      timeTickle := .idle, statusTickle := .idle, watchdog := .idle,
      loopAlive := false, inRegistry := false } ∧
    wsDisconnect { st with
      cbRuns := st.cbRuns + (if st.hasDisconnectCb then 1 else 0),
      timeTickle := .idle, statusTickle := .idle, watchdog := .idle,
      loopAlive := false, inRegistry := false } = .blocked { st with
      cbRuns := st.cbRuns + (if st.hasDisconnectCb then 1 else 0) +
        (if st.hasDisconnectCb then 1 else 0),
      timeTickle := .idle, statusTickle := .idle, watchdog := .idle,
      loopAlive := false, inRegistry := false } := by
  obtain ⟨lc, rem, wd, tt, stt, pt, cb, cr, la, ir⟩ := st
  constructor
  · cases la with
    | false => exact absurd h4 (by simp)
    | true =>
      cases ir with
      | false => exact absurd h5 (by simp)
      | true =>
        cases cb <;> cases tt <;> cases stt <;> cases wd <;>
          first
          | exact absurd rfl h1
          | exact absurd rfl h2
          | exact absurd rfl h3
          | rfl
  · cases cb <;> rfl

/-- Witness for C7 at the concrete connected handler. -/
theorem C7_disconnectOnce_witness :
    wsConnEx.timeTickle ≠ .idle ∧
    wsDisconnect wsConnEx = .ok wsAfter1 :=
  ⟨by decide,
   by
    have := (C7_disconnectOnce wsConnEx (by decide) (by decide) (by decide)
      rfl rfl).1
    simpa [wsConnEx, wsAfter1] using this⟩

/-! ## Order properties of the header comparator -/

theorem lessILoop_irrefl (aI : List Nat) :
    ∀ n x, 33 - x ≤ n → lessILoop aI aI x = false := by
  intro n
  induction n with
  | zero =>
    intro x hx
    unfold lessILoop
    rw [if_neg (by omega)]
  | succ n ih =>
    intro x hx
    unfold lessILoop
    split
    · rw [if_neg (lt_irrefl _), if_neg (lt_irrefl _)]
      exact ih (x + 1) (by omega)
    · rfl

theorem lessILoop_asymm (aI bI : List Nat) :
    ∀ n x, 33 - x ≤ n → lessILoop aI bI x = true →
    lessILoop bI aI x = false := by
  intro n
  induction n with
  | zero =>
    intro x hx hab
    unfold lessILoop at hab
    rw [if_neg (by omega)] at hab
    exact absurd hab (by simp)
  | succ n ih =>
    intro x hx hab
    unfold lessILoop at hab ⊢
    by_cases hlt : x < 33
    · rw [if_pos hlt] at hab ⊢
      rcases Nat.lt_trichotomy (aI.getD x 0) (bI.getD x 0) with h | h | h
      · rw [if_neg (by omega), if_pos h]
      · rw [if_neg (by omega), if_neg (by omega)] at hab ⊢
        exact ih (x + 1) (by omega) hab
      · rw [if_neg (by omega), if_pos h] at hab
        exact absurd hab (by simp)
    · rw [if_neg hlt] at hab
      exact absurd hab (by simp)


theorem lessILoop_trans (aI bI cI : List Nat) :
    ∀ n x, 33 - x ≤ n → lessILoop aI bI x = true →
    lessILoop bI cI x = true → lessILoop aI cI x = true := by
  intro n
  induction n with
  | zero =>
    intro x hx hab _
    unfold lessILoop at hab
    rw [if_neg (by omega)] at hab
    exact absurd hab (by simp)
  | succ n ih =>
    intro x hx hab hbc
    unfold lessILoop at hab hbc ⊢
    by_cases hlt : x < 33
    · rw [if_pos hlt] at hab hbc ⊢
      rcases Nat.lt_trichotomy (aI.getD x 0) (bI.getD x 0) with h1 | h1 | h1
      · rcases Nat.lt_trichotomy (bI.getD x 0) (cI.getD x 0) with h2 | h2 | h2
        · rw [if_pos (by omega)]
        · rw [if_pos (by omega)]
        · rw [if_neg (by omega), if_pos h2] at hbc
          exact absurd hbc (by simp)
      · rcases Nat.lt_trichotomy (bI.getD x 0) (cI.getD x 0) with h2 | h2 | h2
        · rw [if_pos (by omega)]
        · rw [if_neg (by omega), if_neg (by omega)] at hab hbc ⊢
          exact ih (x + 1) (by omega) hab hbc
        · rw [if_neg (by omega), if_pos h2] at hbc
          exact absurd hbc (by simp)
      · rw [if_neg (by omega), if_pos h1] at hab
        exact absurd hab (by simp)
    · rw [if_neg hlt] at hab
      exact absurd hab (by simp)

theorem lessILoop_eq_of_both_false (aI bI : List Nat) :
    ∀ n x, 33 - x ≤ n → lessILoop aI bI x = false →
    lessILoop bI aI x = false →
    ∀ y, x ≤ y → y < 33 → aI.getD y 0 = bI.getD y 0 := by
  intro n
  induction n with
  | zero =>
    intro x hx _ _ y hy1 hy2
    omega
  | succ n ih =>
    intro x hx hab hba y hy1 hy2
    unfold lessILoop at hab hba
    have hlt : x < 33 := by omega
    rw [if_pos hlt] at hab hba
    rcases Nat.lt_trichotomy (aI.getD x 0) (bI.getD x 0) with h1 | h1 | h1
    · rw [if_pos h1] at hab
      exact absurd hab (by simp)
    · rw [if_neg (by omega), if_neg (by omega)] at hab hba
      rcases Nat.eq_or_lt_of_le hy1 with h2 | h2
      · subst h2
        omega
      · exact ih (x + 1) (by omega) hab hba y (by omega) hy2
    · rw [if_pos h1] at hba
      exact absurd hba (by simp)

theorem lessILoop_false_of_eq (aI bI : List Nat) :
    ∀ n x, 33 - x ≤ n →
    (∀ y, x ≤ y → y < 33 → aI.getD y 0 = bI.getD y 0) →
    lessILoop aI bI x = false := by
  intro n
  induction n with
  | zero =>
    intro x hx _
    unfold lessILoop
    rw [if_neg (by omega)]
  | succ n ih =>
    intro x hx heq
    unfold lessILoop
    by_cases hlt : x < 33
    · rw [if_pos hlt]
      have hx0 : aI.getD x 0 = bI.getD x 0 := heq x (le_refl x) hlt
      rw [if_neg (by omega), if_neg (by omega)]
      exact ih (x + 1) (by omega) fun y hy1 hy2 => heq y (by omega) hy2
    · rw [if_neg hlt]

theorem hdrLess_irrefl (a : RawMessageHeader) : hdrLess a a = false := by
  unfold hdrLess
  rw [if_neg (lt_irrefl _), if_neg (lt_irrefl _)]
  exact lessILoop_irrefl a.I 33 0 (by omega)

theorem hdrLess_trans (a b c : RawMessageHeader)
    (hab : hdrLess a b = true) (hbc : hdrLess b c = true) :
    hdrLess a c = true := by
  unfold hdrLess at hab hbc ⊢
  rcases Nat.lt_trichotomy a.time b.time with h1 | h1 | h1
  · rcases Nat.lt_trichotomy b.time c.time with h2 | h2 | h2
    · rw [if_pos (by omega)]
    · rw [if_pos (by omega)]
    · rw [if_neg (by omega), if_pos h2] at hbc
      exact absurd hbc (by simp)
  · rcases Nat.lt_trichotomy b.time c.time with h2 | h2 | h2
    · rw [if_pos (by omega)]
    · rw [if_neg (by omega), if_neg (by omega)] at hab hbc ⊢
      exact lessILoop_trans a.I b.I c.I 33 0 (by omega) hab hbc
    · rw [if_neg (by omega), if_pos h2] at hbc
      exact absurd hbc (by simp)
  · rw [if_neg (by omega), if_pos h1] at hab
    exact absurd hab (by simp)

theorem hdrLess_asymm (a b : RawMessageHeader)
    (hab : hdrLess a b = true) : hdrLess b a = false := by
  unfold hdrLess at hab ⊢
  rcases Nat.lt_trichotomy a.time b.time with h1 | h1 | h1
  · rw [if_neg (by omega), if_pos h1]
  · rw [if_neg (by omega), if_neg (by omega)] at hab ⊢
    exact lessILoop_asymm a.I b.I 33 0 (by omega) hab
  · rw [if_neg (by omega), if_pos h1] at hab
    exact absurd hab (by simp)

theorem hdrLess_key_eq_of_both_false (a b : RawMessageHeader)
    (ha : 33 ≤ a.I.length) (hb : 33 ≤ b.I.length)
    (hab : hdrLess a b = false) (hba : hdrLess b a = false) :
    a.time = b.time ∧ a.I.take 33 = b.I.take 33 := by
  unfold hdrLess at hab hba
  rcases Nat.lt_trichotomy a.time b.time with h1 | h1 | h1
  · rw [if_pos h1] at hab
    exact absurd hab (by simp)
  · rw [if_neg (by omega), if_neg (by omega)] at hab hba
    refine ⟨h1, ?_⟩
    have hpt := lessILoop_eq_of_both_false a.I b.I 33 0 (by omega) hab hba
    apply List.ext_getElem
    · simp only [List.length_take]
      omega
    · intro i hi1 hi2
      simp only [List.length_take] at hi1
      have hi33 : i < 33 := by omega
      have hiA : i < a.I.length := by omega
      have hiB : i < b.I.length := by omega
      rw [List.getElem_take, List.getElem_take]
      have := hpt i (by omega) hi33
      rwa [List.getD_eq_getElem a.I 0 hiA, List.getD_eq_getElem b.I 0 hiB]
        at this
  · rw [if_pos h1] at hba
    exact absurd hba (by simp)

/-- Two headers with equal time whose 34-byte `I` fields agree on the
first 33 bytes and differ at byte 33. -/
def hdrI34a : RawMessageHeader := { I := List.replicate 33 0 ++ [0] }

def hdrI34b : RawMessageHeader := { I := List.replicate 33 0 ++ [1] }

/-- C6 counterexample: the comparator only inspects the first 33 bytes
of `I`, so two headers with `I` fields of length 34 (≥ 33, as the claim
allows) that differ only in byte 33 have distinct `(time, I)` keys but
satisfy neither `Less(a,b)` nor `Less(b,a)` — "exactly one" fails. -/
theorem C6_truncatedKey_counterexample :
    hdrLess hdrI34a hdrI34b = false ∧ hdrLess hdrI34b hdrI34a = false ∧
    hdrI34a.I ≠ hdrI34b.I ∧ hdrI34a.time = hdrI34b.time ∧
    33 ≤ hdrI34a.I.length ∧ 33 ≤ hdrI34b.I.length := by
  have heq : ∀ (L1 L2 : List Nat) y, y < 33 →
      ((List.replicate 33 0 ++ L1 : List Nat)).getD y 0 =
      ((List.replicate 33 0 ++ L2 : List Nat)).getD y 0 := by
    intro L1 L2 y hy
    rw [List.getD_append _ _ _ _ (by simp; omega),
      List.getD_append _ _ _ _ (by simp; omega)]
  have hf1 : hdrLess hdrI34a hdrI34b = false := by
    unfold hdrLess
    rw [if_neg (by decide), if_neg (by decide)]
    exact lessILoop_false_of_eq _ _ 33 0 (by omega)
      (fun y _ hy => heq [0] [1] y hy)
  have hf2 : hdrLess hdrI34b hdrI34a = false := by
    unfold hdrLess
    rw [if_neg (by decide), if_neg (by decide)]
    exact lessILoop_false_of_eq _ _ 33 0 (by omega)
      (fun y _ hy => heq [1] [0] y hy)
  exact ⟨hf1, hf2, by decide, rfl, by decide, by decide⟩

/-- C6 (amended): the comparator `Less` orders by ascending `time` with
tie-break by the byte-lexicographic order of the **first 33 bytes** of
`I`.  It is irreflexive, transitive and asymmetric on all headers; and
for headers whose `I` is at least 33 bytes long it is total on the
truncated key: whenever `(time, I[0:33])` differs, exactly one of
`Less(a,b)`, `Less(b,a)` holds, and when neither holds the truncated
keys coincide. -/
theorem C6_comparatorOrder :
    (∀ a : RawMessageHeader, hdrLess a a = false) ∧
    (∀ a b c : RawMessageHeader, hdrLess a b = true → hdrLess b c = true →
      hdrLess a c = true) ∧
    (∀ a b : RawMessageHeader, hdrLess a b = true → hdrLess b a = false) ∧
    (∀ a b : RawMessageHeader, 33 ≤ a.I.length → 33 ≤ b.I.length →
      (a.time, a.I.take 33) ≠ (b.time, b.I.take 33) →
      (hdrLess a b = true ∧ hdrLess b a = false) ∨
      (hdrLess b a = true ∧ hdrLess a b = false)) := by
  refine ⟨hdrLess_irrefl, hdrLess_trans, hdrLess_asymm, ?_⟩
  intro a b ha hb hne
  rcases Bool.eq_false_or_eq_true (hdrLess a b) with h1 | h1
  · exact Or.inl ⟨h1, hdrLess_asymm a b h1⟩
  · rcases Bool.eq_false_or_eq_true (hdrLess b a) with h2 | h2
    · exact Or.inr ⟨h2, h1⟩
    · obtain ⟨ht, hi⟩ := hdrLess_key_eq_of_both_false a b ha hb h1 h2
      exact absurd (by rw [ht, hi]) hne

/-- Witness for C6 at concrete headers (distinct times and a 33-byte
tie-break). -/
theorem C6_comparatorOrder_witness :
    hdrLess { time := 0 } { time := 1 } = true ∧
    hdrLess { time := 1 } { time := 2 } = true ∧
    hdrLess ({ time := 0 } : RawMessageHeader) { time := 2 } = true ∧
    hdrLess ({ time := 1 } : RawMessageHeader) { time := 0 } = false :=
  ⟨by decide, by decide,
   C6_comparatorOrder.2.1 { time := 0 } { time := 1 } { time := 2 }
     (by decide) (by decide),
   C6_comparatorOrder.2.2.1 { time := 0 } { time := 1 } (by decide)⟩

theorem timerResetPattern_of_ne (d : Nat) (t : TimerState) (h : t ≠ .idle) :
    timerResetPattern d t = some (.armed d) := by
  cases t with
  | armed x => rfl
  | pending => rfl
  | idle => exact absurd rfl h

/-- C5: on an inbound `response-header` whose payload parses, a handler
with a remote cache resets the watchdog, inserts into the peer cache,
and inserts into the local cache exactly when the peer insert reported
`inserted = true`; on a parse failure nothing changes (and in
particular the watchdog is not reset). -/
theorem C5_rxHeaderResponse (now : Nat) (st : WsHandlerState)
    (rc : CacheState) (s : List Nat) (hremote : st.remote = some rc)
    (hwd : st.watchdog ≠ .idle) :
    (∀ rmh, deserializeFresh s = .ok rmh →
      rxHeader now st s = .ok { st with
        watchdog := .armed DefaultWatchdogTimeout,
        remote := some (cacheInsert now rc rmh).1,
        localCache := if (cacheInsert now rc rmh).2.1 = true
          then (cacheInsert now st.localCache rmh).1
          else st.localCache }) ∧
    (∀ m, deserializeFresh s = .failed m → rxHeader now st s = .ok st) := by
  constructor
  · intro rmh hok
    unfold rxHeader
    rw [hok, timerResetPattern_of_ne _ _ hwd]
    simp only [hremote]
    unfold cacheInsert
    by_cases hdup : (rc.headers.any fun g => g.I == rmh.I) = true
    · simp [hdup]
    · by_cases hexp : rmh.expire ≤ now
      · simp [hdup, hexp]
      · simp [hdup, hexp]
  · intro m hfail
    unfold rxHeader
    rw [hfail]

/-- A handler with an attached (empty) remote peer cache. -/
def wsRemoteEx : WsHandlerState := { remote := some {} }

/-- Witness for C5: a malformed payload leaves the handler unchanged. -/
theorem C5_rxHeaderResponse_witness :
    wsRemoteEx.remote = some {} ∧
    rxHeader 0 wsRemoteEx (ascii "M0100") = .ok wsRemoteEx :=
  ⟨rfl, (C5_rxHeaderResponse 0 wsRemoteEx {} (ascii "M0100") rfl
    (by decide)).2 "V1 version string error" (by rfl)⟩

/-- A valid v2 short-form serialization: magic plus zeros. -/
def s164Ex : List Nat := ascii "TQIA" ++ List.replicate 160 65

/-- The header parsed from `s164Ex` (fresh receiver; `r`, `s`, `nonce`
stay at their zero values because the short form omits them). -/
def hdrShortEx : RawMessageHeader :=
  { version := ascii "0200", I := List.replicate 33 0,
    J := List.replicate 33 0, K := List.replicate 33 0 }

/-- C10: a handler whose remote cache is nil resets the watchdog on a
parsed `response-header` but inserts into no cache: the local cache,
the (absent) remote cache and the tickle timers are all unchanged. -/
theorem C10_rxHeaderNoRemote (now : Nat) (st : WsHandlerState)
    (s : List Nat) (hremote : st.remote = none) (hwd : st.watchdog ≠ .idle) :
    ∀ rmh, deserializeFresh s = .ok rmh →
      rxHeader now st s = .ok { st with
        watchdog := .armed DefaultWatchdogTimeout } := by
  intro rmh hok
  unfold rxHeader
  rw [hok, timerResetPattern_of_ne _ _ hwd]
  simp only [hremote]

/-- Witness for C10 at a fresh inbound handler and a concrete valid
short-form header. -/
theorem C10_rxHeaderNoRemote_witness :
    (({} : WsHandlerState)).remote = none ∧
    rxHeader 0 {} s164Ex =
      .ok { watchdog := .armed DefaultWatchdogTimeout } :=
  ⟨rfl, C10_rxHeaderNoRemote 0 {} s164Ex rfl (by decide) hdrShortEx
    (by rfl)⟩

/-- `hdrV1Ex` with a non-zero `blocklen`. -/
def hdrC2Ex : RawMessageHeader :=
  { version := ascii "0100", time := 0x585C9E80, expire := 0x5860F980,
    I := List.replicate 33 2, J := List.replicate 33 3,
    K := List.replicate 33 4, r := List.replicate 32 5,
    s := List.replicate 32 6, blocklen := 1 }

/-- C2 counterexample: a v1 header with `blocklen = 1` does not survive
`Deserialize(Serialize(h))` field-for-field — the v1 text format does
not carry `blocklen`, so it comes back 0. -/
theorem C2_v1Blocklen_counterexample :
    RawMessageHeader.serialize hdrC2Ex = some (v1String hdrC2Ex) ∧
    deserializeFresh (v1String hdrC2Ex) =
      .ok { hdrC2Ex with blocklen := 0 } ∧
    ({ hdrC2Ex with blocklen := 0 } : RawMessageHeader) ≠ hdrC2Ex := by
  refine ⟨serialize_v1_eq hdrC2Ex rfl (by decide) (by decide) (by decide)
    (by decide) (by decide), ?_, by decide⟩
  exact deserialize_v1String {} hdrC2Ex rfl (by decide) (by decide)
    (by decide) (by decide) (by decide) (by decide) (by decide) (by decide)
    (by decide) (by decide) (by decide) (by decide)

/-- C2 (amended): `Deserialize(Serialize(h))` succeeds and returns `h`
field-for-field for v1 headers whose `blocklen`, `reserved` and `nonce`
are 0 (the v1 text format does not carry them) and for v2 headers whose
`nonce` fits in 40 bits (the wire nonce is 5 bytes); and for every v1
or v2 header, `Hash(Deserialize(Serialize(h))) = Hash(h)`
unconditionally, `Hash` being the SHA-256 of the serialization. -/
theorem C2_roundTrip (h : RawMessageHeader)
    (hI : h.I.length = 33) (hJ : h.J.length = 33) (hK : h.K.length = 33)
    (hr : h.r.length = 32) (hs : h.s.length = 32)
    (htime : h.time < 2 ^ 32) (hexp : h.expire < 2 ^ 32)
    (hbl : h.blocklen < 2 ^ 32) (hres : h.reserved < 2 ^ 64)
    (hIb : ∀ b ∈ h.I, b < 256) (hJb : ∀ b ∈ h.J, b < 256)
    (hKb : ∀ b ∈ h.K, b < 256) (hrb : ∀ b ∈ h.r, b < 256)
    (hsb : ∀ b ∈ h.s, b < 256) :
    (h.version = ascii "0100" → h.blocklen = 0 → h.reserved = 0 →
      h.nonce = 0 →
      ∃ s, h.serialize = some s ∧ deserializeFresh s = .ok h) ∧
    (h.version = ascii "0200" → h.nonce < 2 ^ 40 →
      ∃ s, h.serialize = some s ∧ deserializeFresh s = .ok h) ∧
    ((h.version = ascii "0100" ∨ h.version = ascii "0200") →
      ∃ s h2, h.serialize = some s ∧ deserializeFresh s = .ok h2 ∧
        h2.hash = h.hash) := by
  refine ⟨?_, ?_, ?_⟩
  · intro hver hbl0 hres0 hn0
    refine ⟨v1String h, serialize_v1_eq h hver hI hJ hK hr hs, ?_⟩
    have := deserialize_v1String {} h hver hI hJ hK hr hs htime hexp
      hIb hJb hKb hrb hsb
    rw [deserializeFresh, this]
    obtain ⟨ver, t, e, I, J, K, bl, res, r, s2, n⟩ := h
    simp only at hver hbl0 hres0 hn0
    subst hver hbl0 hres0 hn0
    rfl
  · intro hver hn40
    refine ⟨b64EncodeGo (v2Binary h),
      serialize_v2_eq h (by rw [hver]; decide) hI hJ hK hr hs, ?_⟩
    have := deserialize_v2Encoded {} h hI hJ hK hr hs htime hexp hbl hres
      hIb hJb hKb hrb hsb
    rw [deserializeFresh, this]
    have hn : h.nonce / 2 ^ 32 % 256 * 2 ^ 32 + h.nonce % 2 ^ 32 =
        h.nonce := by
      have : h.nonce / 2 ^ 32 < 2 ^ 8 := by omega
      have := Nat.div_add_mod h.nonce (2 ^ 32)
      omega
    rw [hn]
    obtain ⟨ver, t, e, I, J, K, bl, res, r, s2, n⟩ := h
    simp only at hver
    subst hver
    rfl
  · intro hvOr
    rcases hvOr with hver | hver
    · refine ⟨v1String h,
        { version := ascii "0100", time := h.time, expire := h.expire,
          I := h.I, J := h.J, K := h.K, r := h.r, s := h.s },
        serialize_v1_eq h hver hI hJ hK hr hs, ?_, ?_⟩
      · exact deserialize_v1String {} h hver hI hJ hK hr hs htime hexp
          hIb hJb hKb hrb hsb
      · unfold RawMessageHeader.hash
        have h2ser : RawMessageHeader.serialize
            { version := ascii "0100", time := h.time, expire := h.expire,
              I := h.I, J := h.J, K := h.K, r := h.r, s := h.s } =
            some (v1String h) := by
          have := serialize_v1_eq
            { version := ascii "0100", time := h.time, expire := h.expire,
              I := h.I, J := h.J, K := h.K, r := h.r, s := h.s }
            rfl hI hJ hK hr hs
          rw [this]
          unfold v1String
          rw [hver]
        rw [h2ser, serialize_v1_eq h hver hI hJ hK hr hs]
    · refine ⟨b64EncodeGo (v2Binary h),
        { version := ascii "0200", time := h.time, expire := h.expire,
          I := h.I, J := h.J, K := h.K, blocklen := h.blocklen,
          reserved := h.reserved, r := h.r, s := h.s,
          nonce := h.nonce / 2 ^ 32 % 256 * 2 ^ 32 + h.nonce % 2 ^ 32 },
        serialize_v2_eq h (by rw [hver]; decide) hI hJ hK hr hs, ?_, ?_⟩
      · exact deserialize_v2Encoded {} h hI hJ hK hr hs htime hexp hbl
          hres hIb hJb hKb hrb hsb
      · unfold RawMessageHeader.hash
        have e1 : (h.nonce / 2 ^ 32 % 256 * 2 ^ 32 + h.nonce % 2 ^ 32) /
            2 ^ 32 % 256 = h.nonce / 2 ^ 32 % 256 := by omega
        have e2 : (h.nonce / 2 ^ 32 % 256 * 2 ^ 32 + h.nonce % 2 ^ 32) %
            2 ^ 32 = h.nonce % 2 ^ 32 := by omega
        have hbin : v2Binary
            { version := ascii "0200", time := h.time, expire := h.expire,
              I := h.I, J := h.J, K := h.K, blocklen := h.blocklen,
              reserved := h.reserved, r := h.r, s := h.s,
              nonce := h.nonce / 2 ^ 32 % 256 * 2 ^ 32 +
                h.nonce % 2 ^ 32 } = v2Binary h := by
          unfold v2Binary
          simp only [e1, e2]
        have h2ser : RawMessageHeader.serialize
            { version := ascii "0200", time := h.time, expire := h.expire,
              I := h.I, J := h.J, K := h.K, blocklen := h.blocklen,
              reserved := h.reserved, r := h.r, s := h.s,
              nonce := h.nonce / 2 ^ 32 % 256 * 2 ^ 32 +
                h.nonce % 2 ^ 32 } =
            some (b64EncodeGo (v2Binary h)) := by
          have hser := serialize_v2_eq
            { version := ascii "0200", time := h.time, expire := h.expire,
              I := h.I, J := h.J, K := h.K, blocklen := h.blocklen,
              reserved := h.reserved, r := h.r, s := h.s,
              nonce := h.nonce / 2 ^ 32 % 256 * 2 ^ 32 +
                h.nonce % 2 ^ 32 }
            (by exact (by decide : ascii "0200" ≠ ascii "0100"))
            hI hJ hK hr hs
          rw [hser, hbin]
        rw [h2ser, serialize_v2_eq h (by rw [hver]; decide) hI hJ hK hr hs]

/-- Witness for C2 at a concrete v1 header. -/
theorem C2_roundTrip_witness :
    hdrV1Ex.version = ascii "0100" ∧
    ∃ s, hdrV1Ex.serialize = some s ∧ deserializeFresh s = .ok hdrV1Ex :=
  ⟨rfl, (C2_roundTrip hdrV1Ex (by decide) (by decide) (by decide)
    (by decide) (by decide) (by decide) (by decide) (by decide) (by decide)
    (by decide) (by decide) (by decide) (by decide) (by decide)).1
    rfl rfl rfl rfl⟩

/-! ## Reconstruction of a string from its colon fields -/

/-- Inverse of `splitColon` (Go `strings.Join(d, ":")`). -/
def joinColon : List (List Nat) → List Nat
  | [] => []
  | [p] => p
  | p :: ps => p ++ 58 :: joinColon ps

theorem joinColon_cons_head (c : Nat) (p : List Nat)
    (t : List (List Nat)) :
    joinColon ((c :: p) :: t) = c :: joinColon (p :: t) := by
  cases t with
  | nil => rfl
  | cons q t => simp [joinColon]

theorem joinColon_splitColon (s : List Nat) :
    joinColon (splitColon s) = s := by
  induction s with
  | nil => rfl
  | cons c rest ih =>
    rcases hsp : splitColon rest with _ | ⟨x, t⟩
    · exact absurd hsp (splitColon_ne_nil rest)
    · rw [hsp] at ih
      by_cases hc : c = 58
      · subst hc
        have : splitColon (58 :: rest) = [] :: x :: t := by
          simp [splitColon, hsp]
        rw [this]
        show ([] : List Nat) ++ 58 :: joinColon (x :: t) = 58 :: rest
        simp [ih]
      · have : splitColon (c :: rest) = (c :: x) :: t := by
          simp [splitColon, hsp, hc]
        rw [this, joinColon_cons_head, ih]

theorem isLcHexDigit_isSome {c : Nat} (h : isLcHexDigit c = true) :
    (hexDigitVal c).isSome = true := by
  unfold isLcHexDigit at h
  unfold hexDigitVal
  simp only [Bool.or_eq_true, Bool.and_eq_true, decide_eq_true_eq] at h
  rcases h with ⟨h1, h2⟩ | ⟨h1, h2⟩
  · rw [if_pos (by omega)]
    rfl
  · rw [if_neg (by omega), if_pos (by omega)]
    rfl

theorem hexDecode_isSome_of_digits (s : List Nat) :
    s.length % 2 = 0 → (∀ c ∈ s, isLcHexDigit c = true) →
    ∃ bs, hexDecodeGo s = some bs := by
  induction s using hexDecodeGo.induct with
  | case1 => exact fun _ _ => ⟨[], rfl⟩
  | case2 c => intro hlen _; simp at hlen
  | case3 c1 c2 rest ih =>
    intro hlen hall
    have h1 := isLcHexDigit_isSome (hall c1 (by simp))
    have h2 := isLcHexDigit_isSome (hall c2 (by simp))
    rcases hv1 : hexDigitVal c1 with _ | v1
    · rw [hv1] at h1; simp at h1
    rcases hv2 : hexDigitVal c2 with _ | v2
    · rw [hv2] at h2; simp at h2
    obtain ⟨tl, htl⟩ := ih (by simp at hlen ⊢; omega)
      (fun c hc => hall c (by simp [hc]))
    exact ⟨(16 * v1 + v2) :: tl, by
      simp [hexDecodeGo, hv1, hv2, htl]⟩

theorem validV1_roundTrip (s : List Nat) (hv : validV1 s = true) :
    ∃ h, deserializeFresh s = .ok h ∧ h.serialize = some s ∧
      h.version = ascii "0100" := by
  unfold validV1 at hv
  split at hv
  case h_2 => exact absurd hv (by simp)
  case h_1 d0 d1 d2 d3 d4 d5 d6 d7 heq =>
  simp only [Bool.and_eq_true, beq_iff_eq, List.all_eq_true, and_assoc] at hv
  obtain ⟨h0, h1l, h1a, h2l, h2a, h3l, h3a, h4l, h4a, h5l, h5a, h6l, h6a,
    h7l, h7a⟩ := hv
  subst h0
  obtain ⟨hu1, hp1⟩ := u32hexUpper_goParseUintHex32 d1 h1l h1a
  obtain ⟨hu2, hp2⟩ := u32hexUpper_goParseUintHex32 d2 h2l h2a
  obtain ⟨I, hI⟩ := hexDecode_isSome_of_digits d3 (by omega) h3a
  obtain ⟨J, hJ⟩ := hexDecode_isSome_of_digits d4 (by omega) h4a
  obtain ⟨K, hK⟩ := hexDecode_isSome_of_digits d5 (by omega) h5a
  obtain ⟨r, hr⟩ := hexDecode_isSome_of_digits d6 (by omega) h6a
  obtain ⟨s7, hs7⟩ := hexDecode_isSome_of_digits d7 (by omega) h7a
  have hIe := hexEncode_of_decode d3 I hI h3a
  have hJe := hexEncode_of_decode d4 J hJ h4a
  have hKe := hexEncode_of_decode d5 K hK h5a
  have hre := hexEncode_of_decode d6 r hr h6a
  have hse := hexEncode_of_decode d7 s7 hs7 h7a
  obtain ⟨hIl, hIb⟩ := hexDecode_length d3 I hI
  obtain ⟨hJl, hJb⟩ := hexDecode_length d4 J hJ
  obtain ⟨hKl, hKb⟩ := hexDecode_length d5 K hK
  obtain ⟨hrl, hrb⟩ := hexDecode_length d6 r hr
  obtain ⟨hsl, hsb⟩ := hexDecode_length d7 s7 hs7
  have hs_eq : s = ascii "M0100" ++ 58 :: (d1 ++ 58 :: (d2 ++ 58 ::
      (d3 ++ 58 :: (d4 ++ 58 :: (d5 ++ 58 :: (d6 ++ 58 :: d7)))))) := by
    have hjs := joinColon_splitColon s
    rw [heq] at hjs
    simp only [joinColon] at hjs
    simpa using hjs.symm
  have hnot3 : ¬ s.length < 3 := by
    rw [hs_eq, ascii_M0100]
    simp
  have htake : s.take 3 = ascii "M01" := by
    rw [hs_eq, ascii_M0100, ascii_M01]
    rfl
  refine ⟨
    { version := ascii "0100", time := goParseUintHex32 d1,
      expire := goParseUintHex32 d2, I := I, J := J, K := K, r := r,
      s := s7 }, ?_, ?_, rfl⟩
  · unfold deserializeFresh RawMessageHeader.deserialize
    rw [if_neg hnot3, if_pos htake]
    unfold RawMessageHeader.deserializeV1
    rw [heq]
    simp only [hI, hJ, hK, hr, hs7]
    rw [if_neg (by decide)]
    rfl
  · have hser := serialize_v1_eq
      { version := ascii "0100", time := goParseUintHex32 d1,
        expire := goParseUintHex32 d2, I := I, J := J, K := K, r := r,
        s := s7 }
      rfl (by simpa [h3l] using hIl)
      (by simpa [h4l] using hJl) (by simpa [h5l] using hKl)
      (by simpa [h6l] using hrl) (by simpa [h7l] using hsl)
    rw [hser]
    congr 1
    unfold v1String
    simp only [hu1, hu2, hIe, hJe, hKe, hre, hse]
    rw [hs_eq]
    simp [ascii]

theorem filter_crlf_of_b64 (s : List Nat)
    (h : ∀ c ∈ s, isB64Char c = true) :
    (s.filter fun c => c != 10 && c != 13) = s := by
  rw [List.filter_eq_self]
  intro c hc
  have hb := h c hc
  simp only [bne_iff_ne, ne_eq, Bool.and_eq_true, decide_eq_true_eq]
  constructor
  · intro hcc
    subst hcc
    exact absurd hb (by decide)
  · intro hcc
    subst hcc
    exact absurd hb (by decide)

theorem validV2Long_roundTrip (s : List Nat) (hv : validV2Long s = true) :
    ∃ h, deserializeFresh s = .ok h ∧ h.serialize = some s ∧
      h.version = ascii "0200" := by
  unfold validV2Long at hv
  simp only [Bool.and_eq_true, beq_iff_eq, List.all_eq_true, and_assoc] at hv
  obtain ⟨hlen, hall, hmagic⟩ := hv
  rcases hdec : b64DecodeGo s with _ | smh
  · rw [hdec] at hmagic
    simp at hmagic
  rw [hdec] at hmagic
  simp only [beq_iff_eq] at hmagic
  have hquads : b64DecodeQuads s = some smh := by
    unfold b64DecodeGo at hdec
    rwa [filter_crlf_of_b64 s hall] at hdec
  obtain ⟨henc, hmod3, hsl, hbytes⟩ :=
    b64Encode_of_decodeQuads s smh hquads hall
  have hsl192 : smh.length = 192 := by rw [hsl, hlen]
  have hsm : smh = 77 :: 2 :: 0 :: 0 :: smh.drop 4 := by
    conv_lhs => rw [← List.take_append_drop 4 smh]
    rw [hmagic]
    rfl
  have htk3 : s.take 3 = [84, 81, 73] := by
    rw [← henc]
    conv_lhs => rw [hsm]
    exact b64Encode_magic_take3 _
  have hsliceb : ∀ m k, ∀ b ∈ (smh.drop m).take k, b < 256 := by
    intro m k b hb
    exact hbytes b (List.mem_of_mem_drop (List.mem_of_mem_take hb))
  have hslicelen : ∀ m k, m + k ≤ 192 → ((smh.drop m).take k).length = k := by
    intro m k hmk
    simp only [List.length_take, List.length_drop, hsl192]
    omega
  have hdig : ∀ m k, m + k ≤ 192 →
      digitsBE 256 k (fromDigitsBE 256 ((smh.drop m).take k)) =
      (smh.drop m).take k := by
    intro m k hmk
    have := digitsBE_fromDigitsBE 256 ((smh.drop m).take k)
      (hsliceb m k)
    rwa [hslicelen m k hmk] at this
  have hfdlt : ∀ m k, m + k ≤ 192 →
      fromDigitsBE 256 ((smh.drop m).take k) < 256 ^ k := by
    intro m k hmk
    have := fromDigitsBE_lt 256 ((smh.drop m).take k) (hsliceb m k)
    rwa [hslicelen m k hmk] at this
  have h187lt : smh.getD 187 0 < 256 := by
    rw [List.getD_eq_getElem smh 0 (by omega)]
    exact hbytes _ (List.getElem_mem _)
  refine ⟨
    { version := ascii "0200",
      time := fromDigitsBE 256 ((smh.drop 4).take 4),
      expire := fromDigitsBE 256 ((smh.drop 8).take 4),
      I := (smh.drop 12).take 33, J := (smh.drop 45).take 33,
      K := (smh.drop 78).take 33,
      blocklen := fromDigitsBE 256 ((smh.drop 111).take 4),
      reserved := fromDigitsBE 256 ((smh.drop 115).take 8),
      r := (smh.drop 123).take 32, s := (smh.drop 155).take 32,
      nonce := smh.getD 187 0 * 2 ^ 32 +
        fromDigitsBE 256 ((smh.drop 188).take 4) }, ?_, ?_, rfl⟩
  · unfold deserializeFresh RawMessageHeader.deserialize
    rw [if_neg (by rw [hlen]; omega), if_neg (by rw [htk3]; decide)]
    unfold RawMessageHeader.deserializeV2
    rw [if_neg (by rw [hlen]; decide), if_pos (by rw [hlen]; decide),
      List.take_of_length_le (by rw [hlen]; decide)]
    simp only [hdec]
    unfold RawMessageHeader.importBinaryHeaderV2
    rw [if_neg (by rw [hsl192]; decide), if_neg (by rw [hmagic]; decide)]
    rw [if_pos (by rw [hsl192]; decide)]
    rfl
  · have hver2 : (ascii "0200" : List Nat) ≠ ascii "0100" := by decide
    have hser := serialize_v2_eq
      { version := ascii "0200",
        time := fromDigitsBE 256 ((smh.drop 4).take 4),
        expire := fromDigitsBE 256 ((smh.drop 8).take 4),
        I := (smh.drop 12).take 33, J := (smh.drop 45).take 33,
        K := (smh.drop 78).take 33,
        blocklen := fromDigitsBE 256 ((smh.drop 111).take 4),
        reserved := fromDigitsBE 256 ((smh.drop 115).take 8),
        r := (smh.drop 123).take 32, s := (smh.drop 155).take 32,
        nonce := smh.getD 187 0 * 2 ^ 32 +
          fromDigitsBE 256 ((smh.drop 188).take 4) }
      hver2 (hslicelen 12 33 (by omega)) (hslicelen 45 33 (by omega))
      (hslicelen 78 33 (by omega)) (hslicelen 123 32 (by omega))
      (hslicelen 155 32 (by omega))
    rw [hser]
    congr 1
    have hfd4 : fromDigitsBE 256 ((smh.drop 188).take 4) < 2 ^ 32 := by
      have := hfdlt 188 4 (by omega)
      norm_num at this
      omega
    have hnb : (smh.getD 187 0 * 2 ^ 32 +
        fromDigitsBE 256 ((smh.drop 188).take 4)) / 2 ^ 32 % 256 =
        smh.getD 187 0 := by omega
    have hnm : (smh.getD 187 0 * 2 ^ 32 +
        fromDigitsBE 256 ((smh.drop 188).take 4)) % 2 ^ 32 =
        fromDigitsBE 256 ((smh.drop 188).take 4) := by omega
    have e188 : (smh.drop 188).take 4 = smh.drop 188 :=
      List.take_of_length_le (by simp [hsl192])
    have estep : ∀ m k, ((smh.drop m).take k) ++ smh.drop (m + k) =
        smh.drop m := by
      intro m k
      have h := List.take_append_drop k (smh.drop m)
      rwa [List.drop_drop] at h
    have h1871 : (smh.drop 187).take 1 = [smh.getD 187 0] := by
      rcases hd187 : smh.drop 187 with _ | ⟨x, rest⟩
      · have hlen5 : (smh.drop 187).length = 5 := by simp [hsl192]
        rw [hd187] at hlen5
        simp at hlen5
      · have hx := getD_of_drop_cons hd187
        rw [hx]
        rfl
    have e187 := estep 187 1
    norm_num at e187
    have e155 := estep 155 32
    norm_num at e155
    have e123 := estep 123 32
    norm_num at e123
    have e115 := estep 115 8
    norm_num at e115
    have e111 := estep 111 4
    norm_num at e111
    have e78 := estep 78 33
    norm_num at e78
    have e45 := estep 45 33
    norm_num at e45
    have e12 := estep 12 33
    norm_num at e12
    have e8 := estep 8 4
    norm_num at e8
    have e4 := estep 4 4
    norm_num at e4
    have q187 : smh.drop 187 =
        (smh.drop 187).take 1 ++ (smh.drop 188).take 4 := by
      rw [e188]
      exact e187.symm
    have q155 : smh.drop 155 = (smh.drop 155).take 32 ++
        ((smh.drop 187).take 1 ++ (smh.drop 188).take 4) := by
      rw [← q187]
      exact e155.symm
    have q123 : smh.drop 123 = (smh.drop 123).take 32 ++
        ((smh.drop 155).take 32 ++ ((smh.drop 187).take 1 ++
        (smh.drop 188).take 4)) := by
      rw [← q155]
      exact e123.symm
    have q115 : smh.drop 115 = (smh.drop 115).take 8 ++
        ((smh.drop 123).take 32 ++ ((smh.drop 155).take 32 ++
        ((smh.drop 187).take 1 ++ (smh.drop 188).take 4))) := by
      rw [← q123]
      exact e115.symm
    have q111 : smh.drop 111 = (smh.drop 111).take 4 ++
        ((smh.drop 115).take 8 ++ ((smh.drop 123).take 32 ++
        ((smh.drop 155).take 32 ++ ((smh.drop 187).take 1 ++
        (smh.drop 188).take 4)))) := by
      rw [← q115]
      exact e111.symm
    have q78 : smh.drop 78 = (smh.drop 78).take 33 ++
        ((smh.drop 111).take 4 ++ ((smh.drop 115).take 8 ++
        ((smh.drop 123).take 32 ++ ((smh.drop 155).take 32 ++
        ((smh.drop 187).take 1 ++ (smh.drop 188).take 4))))) := by
      rw [← q111]
      exact e78.symm
    have q45 : smh.drop 45 = (smh.drop 45).take 33 ++
        ((smh.drop 78).take 33 ++ ((smh.drop 111).take 4 ++
        ((smh.drop 115).take 8 ++ ((smh.drop 123).take 32 ++
        ((smh.drop 155).take 32 ++ ((smh.drop 187).take 1 ++
        (smh.drop 188).take 4)))))) := by
      rw [← q78]
      exact e45.symm
    have q12 : smh.drop 12 = (smh.drop 12).take 33 ++
        ((smh.drop 45).take 33 ++ ((smh.drop 78).take 33 ++
        ((smh.drop 111).take 4 ++ ((smh.drop 115).take 8 ++
        ((smh.drop 123).take 32 ++ ((smh.drop 155).take 32 ++
        ((smh.drop 187).take 1 ++ (smh.drop 188).take 4))))))) := by
      rw [← q45]
      exact e12.symm
    have q8 : smh.drop 8 = (smh.drop 8).take 4 ++
        ((smh.drop 12).take 33 ++ ((smh.drop 45).take 33 ++
        ((smh.drop 78).take 33 ++ ((smh.drop 111).take 4 ++
        ((smh.drop 115).take 8 ++ ((smh.drop 123).take 32 ++
        ((smh.drop 155).take 32 ++ ((smh.drop 187).take 1 ++
        (smh.drop 188).take 4)))))))) := by
      rw [← q12]
      exact e8.symm
    have q4 : smh.drop 4 = (smh.drop 4).take 4 ++
        ((smh.drop 8).take 4 ++ ((smh.drop 12).take 33 ++
        ((smh.drop 45).take 33 ++ ((smh.drop 78).take 33 ++
        ((smh.drop 111).take 4 ++ ((smh.drop 115).take 8 ++
        ((smh.drop 123).take 32 ++ ((smh.drop 155).take 32 ++
        ((smh.drop 187).take 1 ++ (smh.drop 188).take 4))))))))) := by
      rw [← q8]
      exact e4.symm
    have q0 : smh = smh.take 4 ++ ((smh.drop 4).take 4 ++
        ((smh.drop 8).take 4 ++ ((smh.drop 12).take 33 ++
        ((smh.drop 45).take 33 ++ ((smh.drop 78).take 33 ++
        ((smh.drop 111).take 4 ++ ((smh.drop 115).take 8 ++
        ((smh.drop 123).take 32 ++ ((smh.drop 155).take 32 ++
        ((smh.drop 187).take 1 ++ (smh.drop 188).take 4)))))))))) := by
      rw [← q4]
      exact (List.take_append_drop 4 smh).symm
    have hv2b : v2Binary
        { version := ascii "0200",
          time := fromDigitsBE 256 ((smh.drop 4).take 4),
          expire := fromDigitsBE 256 ((smh.drop 8).take 4),
          I := (smh.drop 12).take 33, J := (smh.drop 45).take 33,
          K := (smh.drop 78).take 33,
          blocklen := fromDigitsBE 256 ((smh.drop 111).take 4),
          reserved := fromDigitsBE 256 ((smh.drop 115).take 8),
          r := (smh.drop 123).take 32, s := (smh.drop 155).take 32,
          nonce := smh.getD 187 0 * 2 ^ 32 +
            fromDigitsBE 256 ((smh.drop 188).take 4) } = smh := by
      unfold v2Binary
      simp only [hnb, hnm, hdig 4 4 (by omega), hdig 8 4 (by omega),
        hdig 111 4 (by omega), hdig 115 8 (by omega),
        hdig 188 4 (by omega)]
      conv_rhs => rw [q0]
      rw [hmagic, h1871]
      simp only [List.append_assoc]
    rw [hv2b, henc]

theorem validV2Short_noRoundTrip (s : List Nat)
    (hv : validV2Short s = true) :
    ∃ h, deserializeFresh s = .ok h ∧ h.serialize = none ∧
      h.version = ascii "0200" := by
  unfold validV2Short at hv
  simp only [Bool.and_eq_true, beq_iff_eq, List.all_eq_true, and_assoc] at hv
  obtain ⟨hlen, hall, hmagic⟩ := hv
  rcases hdec : b64DecodeGo s with _ | smh
  · rw [hdec] at hmagic
    simp at hmagic
  rw [hdec] at hmagic
  simp only [beq_iff_eq] at hmagic
  have hquads : b64DecodeQuads s = some smh := by
    unfold b64DecodeGo at hdec
    rwa [filter_crlf_of_b64 s hall] at hdec
  obtain ⟨henc, hmod3, hsl, hbytes⟩ :=
    b64Encode_of_decodeQuads s smh hquads hall
  have hsl123 : smh.length = 123 := by rw [hsl, hlen]
  have hsm : smh = 77 :: 2 :: 0 :: 0 :: smh.drop 4 := by
    conv_lhs => rw [← List.take_append_drop 4 smh]
    rw [hmagic]
    rfl
  have htk3 : s.take 3 = [84, 81, 73] := by
    rw [← henc]
    conv_lhs => rw [hsm]
    exact b64Encode_magic_take3 _
  have hslicelen : ∀ m k, m + k ≤ 123 → ((smh.drop m).take k).length = k := by
    intro m k hmk
    simp only [List.length_take, List.length_drop, hsl123]
    omega
  refine ⟨
    { version := ascii "0200",
      time := fromDigitsBE 256 ((smh.drop 4).take 4),
      expire := fromDigitsBE 256 ((smh.drop 8).take 4),
      I := (smh.drop 12).take 33, J := (smh.drop 45).take 33,
      K := (smh.drop 78).take 33,
      blocklen := fromDigitsBE 256 ((smh.drop 111).take 4),
      reserved := fromDigitsBE 256 ((smh.drop 115).take 8) }, ?_, ?_, rfl⟩
  · unfold deserializeFresh RawMessageHeader.deserialize
    rw [if_neg (by rw [hlen]; omega), if_neg (by rw [htk3]; decide)]
    unfold RawMessageHeader.deserializeV2
    rw [if_neg (by rw [hlen]; decide), if_neg (by rw [hlen]; decide),
      List.take_of_length_le (by rw [hlen]; decide)]
    simp only [hdec]
    unfold RawMessageHeader.importBinaryHeaderV2
    rw [if_neg (by rw [hsl123]; decide), if_neg (by rw [hmagic]; decide)]
    rw [if_neg (by rw [hsl123]; decide)]
    rfl
  · unfold RawMessageHeader.serialize
    rw [if_neg (by exact (by decide : ascii "0200" ≠ ascii "0100"))]
    unfold RawMessageHeader.serializeV2 RawMessageHeader.exportBinaryHeaderV2
    rw [if_neg ?_]
    · rfl
    · simp only [List.length_append, digitsBE_length,
        hslicelen 12 33 (by omega), hslicelen 45 33 (by omega),
        hslicelen 78 33 (by omega)]
      decide

/-- C1 counterexample: a valid 164-character v2 short-form string
parses successfully, but `Serialize` of the resulting header fails
(the 128-byte binary export is rejected and Go dereferences the nil
result), so `Serialize(Deserialize(s))` is not `s`. -/
theorem C1_shortForm_counterexample :
    validV2Short s164Ex = true ∧
    deserializeFresh s164Ex = .ok hdrShortEx ∧
    RawMessageHeader.serialize hdrShortEx = none := by
  refine ⟨by decide, by rfl, ?_⟩
  decide

/-- C1 (amended): every valid v1 ASCII header and every valid 256-char
v2 long-form header round-trips exactly through
`Deserialize`/`Serialize`, and version is sticky (v1 re-serializes as
v1, v2 as v2); a valid 164-char short-form header parses but its
re-serialization fails (`nil` export). -/
theorem C1_codecRoundTrip :
    (∀ s, validV1 s = true →
      ∃ h, deserializeFresh s = .ok h ∧ h.serialize = some s ∧
        h.version = ascii "0100") ∧
    (∀ s, validV2Long s = true →
      ∃ h, deserializeFresh s = .ok h ∧ h.serialize = some s ∧
        h.version = ascii "0200") ∧
    (∀ s, validV2Short s = true →
      ∃ h, deserializeFresh s = .ok h ∧ h.serialize = none ∧
        h.version = ascii "0200") :=
  ⟨validV1_roundTrip, validV2Long_roundTrip, validV2Short_noRoundTrip⟩

/-- Witness for C1 at a concrete valid v1 serialization. -/
theorem C1_codecRoundTrip_witness :
    validV1 (v1String hdrV1Ex) = true ∧
    ∃ h, deserializeFresh (v1String hdrV1Ex) = .ok h ∧
      h.serialize = some (v1String hdrV1Ex) ∧
      h.version = ascii "0100" :=
  ⟨by decide, C1_codecRoundTrip.1 (v1String hdrV1Ex) (by decide)⟩

/-- `true` exactly on the `.ok` results of `Deserialize`. -/
def DeserializeResult.isOkB : DeserializeResult → Bool
  | .ok _ => true
  | _ => false

/-- The inputs `deserializeV1` accepts: 8 colon-separated fields, tag
`M0100`, and hex-decodable `I,J,K,r,s` fields.  Field widths and the
`time`/`expire` alphabet are NOT constrained (`ParseUint` errors are
discarded). -/
def v1Accepted (s : List Nat) : Bool :=
  match splitColon s with
  | [d0, _, _, d3, d4, d5, d6, d7] =>
    d0 == ascii "M0100" &&
    (hexDecodeGo d3).isSome && (hexDecodeGo d4).isSome &&
    (hexDecodeGo d5).isSome && (hexDecodeGo d6).isSome &&
    (hexDecodeGo d7).isSome
  | _ => false

/-- The inputs `deserializeV2` accepts: at least 164 characters, the
256- (long) or 164- (short) character prefix base64-decodes, the
decoded bytes number at least 123 and begin with the v2 magic. -/
def v2Accepted (s : List Nat) : Bool :=
  if s.length < ShortMessageHeaderLengthB64V2 then false
  else
    match b64DecodeGo (if MessageHeaderLengthB64V2 ≤ s.length
        then s.take MessageHeaderLengthB64V2
        else s.take ShortMessageHeaderLengthB64V2) with
    | none => false
    | some smh =>
      !decide (smh.length < ShortMessageHeaderLengthV2) &&
        smh.take 4 == [77, 2, 0, 0]

theorem ofExceptHeader_ne_panicked (e : Except String RawMessageHeader) :
    ofExceptHeader e ≠ .panicked := by
  cases e <;> simp [ofExceptHeader]

theorem deserializeV1_isOkB (z : RawMessageHeader) (s : List Nat) :
    (ofExceptHeader (z.deserializeV1 s)).isOkB = v1Accepted s := by
  unfold RawMessageHeader.deserializeV1 v1Accepted
  rcases hsp : splitColon s with _ | ⟨d0, _ | ⟨d1, _ | ⟨d2, _ | ⟨d3,
    _ | ⟨d4, _ | ⟨d5, _ | ⟨d6, _ | ⟨d7, _ | ⟨d8, rest⟩⟩⟩⟩⟩⟩⟩⟩⟩
  · rfl
  · rfl
  · rfl
  · rfl
  · rfl
  · rfl
  · rfl
  · rfl
  · by_cases hd0 : d0 = ascii "M0100"
    · cases h3 : hexDecodeGo d3 <;> cases h4 : hexDecodeGo d4 <;>
        cases h5 : hexDecodeGo d5 <;> cases h6 : hexDecodeGo d6 <;>
        cases h7 : hexDecodeGo d7 <;>
        simp [ofExceptHeader, DeserializeResult.isOkB, hd0, h3, h4, h5,
          h6, h7]
    · simp [ofExceptHeader, DeserializeResult.isOkB, hd0]
  · rfl

theorem deserializeV2_isOkB (z : RawMessageHeader) (s : List Nat) :
    (ofExceptHeader (z.deserializeV2 s)).isOkB = v2Accepted s := by
  unfold RawMessageHeader.deserializeV2 v2Accepted
  by_cases hlen : s.length < ShortMessageHeaderLengthB64V2
  · rw [if_pos hlen, if_pos hlen]
    rfl
  · rw [if_neg hlen, if_neg hlen]
    rcases hb : b64DecodeGo (if MessageHeaderLengthB64V2 ≤ s.length
        then s.take MessageHeaderLengthB64V2
        else s.take ShortMessageHeaderLengthB64V2) with _ | smh
    · simp only [hb]
      rfl
    · simp only [hb]
      unfold RawMessageHeader.importBinaryHeaderV2
      by_cases hsl : smh.length < ShortMessageHeaderLengthV2
      · simp [ofExceptHeader, DeserializeResult.isOkB, hsl]
      · by_cases hmg : smh.take 4 = [77, 2, 0, 0]
        · rcases Nat.lt_or_ge smh.length MessageHeaderLengthV2 with h | h
          · simp [ofExceptHeader, DeserializeResult.isOkB, hsl, hmg,
              Nat.not_le.mpr h]
          · simp [ofExceptHeader, DeserializeResult.isOkB, hsl, hmg, h]
        · simp [ofExceptHeader, DeserializeResult.isOkB, hsl, hmg]

/-- C4 counterexample: `Deserialize` accepts a v1-tagged string whose
`time` field is not hexadecimal ("GG", parsed as 0), whose field
widths are wrong (2-character fields instead of 8/66/64), returning
`.ok` rather than a malformed-header error. -/
theorem C4_malformedAccepted_counterexample :
    deserializeFresh (ascii "M0100:GG:12:aa:bb:cc:dd:ee") =
      .ok
        { version := ascii "0100", time := 0, expire := 18,
          I := [170], J := [187], K := [204], r := [221], s := [238] } := by
  decide

/-- C4 (amended): `Deserialize` panics on inputs shorter than 3 bytes;
on longer inputs it never panics, and succeeds exactly on `v1Accepted`
(8 colon fields, tag `M0100`, hex-decodable `I,J,K,r,s` — field widths
and the `time`/`expire` alphabet unchecked) for `M01`-prefixed input,
and exactly on `v2Accepted` (≥164 chars, base64-decodable prefix,
≥123 decoded bytes starting with the v2 magic) otherwise. -/
theorem C4_deserializeCharacterization :
    (∀ s : List Nat, s.length < 3 → deserializeFresh s = .panicked) ∧
    (∀ s : List Nat, 3 ≤ s.length → s.take 3 = ascii "M01" →
      (deserializeFresh s).isOkB = v1Accepted s) ∧
    (∀ s : List Nat, 3 ≤ s.length → s.take 3 ≠ ascii "M01" →
      (deserializeFresh s).isOkB = v2Accepted s) ∧
    (∀ s : List Nat, 3 ≤ s.length → deserializeFresh s ≠ .panicked) := by
  refine ⟨?_, ?_, ?_, ?_⟩
  · intro s hs
    unfold deserializeFresh RawMessageHeader.deserialize
    rw [if_pos hs]
  · intro s hs htk
    unfold deserializeFresh RawMessageHeader.deserialize
    rw [if_neg (by omega), if_pos htk]
    exact deserializeV1_isOkB {} s
  · intro s hs htk
    unfold deserializeFresh RawMessageHeader.deserialize
    rw [if_neg (by omega), if_neg htk]
    exact deserializeV2_isOkB {} s
  · intro s hs
    unfold deserializeFresh RawMessageHeader.deserialize
    rw [if_neg (by omega)]
    split
    · exact ofExceptHeader_ne_panicked _
    · exact ofExceptHeader_ne_panicked _

/-- Witness for C4 on a one-byte input, which panics. -/
theorem C4_deserializeCharacterization_witness :
    ([77] : List Nat).length < 3 ∧ deserializeFresh [77] = .panicked :=
  ⟨by decide, C4_deserializeCharacterization.1 [77] (by decide)⟩
